import Mathlib

/-!
Verification of the obsidian-logger diagnostic logging layer.

Shallow embedding of the repository's source:
  * `src/src/config.ts` (state container, log-history buffer),
  * `src/src/class-registry.ts` (instance → display-name registry),
  * `src/src/loggers.ts` (safe serialization, level gating, the log emitter),
  * the stack-parser module (`formatPrefixCustom` / `formatPrefixOnly` and the
    caller-info record they consume),
  * the debug controller (`setLevel` etc., `copyLogs`, `clearLogs`,
    `simplifyPath`).

Modelling conventions:
  * JavaScript strings are Lean `String`s; `null`/`undefined` for strings are
    `Option String` with `none`; JS truthiness of a string is "`some s` with
    `s ≠ \"\"`".
  * The ambient browser window is taken to be present and the debug controller
    installed (the logger is only ever exercised in that configuration); the
    per-namespace dispatch of the controller is modelled on the path where the
    requested namespace is the logger's own.
  * Stack capture is ambient input: functions that call `getCallerInfo()` in
    the source take the captured `CallerInfo` record as an explicit argument.
  * Object identity lives in an explicit store: an object is a `Nat` id mapped
    to its `ObjData`; cyclic object graphs are cycles in the store.
-/

namespace ObsLog

/-- JS whitespace class `\s` (the code points matched by the regexes and by
`String.prototype.trim`). -/
def jsWs (c : Char) : Bool :=
  c = ' ' ∨ c = '\t' ∨ c = '\n' ∨ c = '\r' ∨ c.val = 0x0b ∨ c.val = 0x0c ∨
  c.val = 0xa0 ∨ c.val = 0xfeff ∨ c.val = 0x1680 ∨
  (0x2000 ≤ c.val ∧ c.val ≤ 0x200a) ∨
  c.val = 0x2028 ∨ c.val = 0x2029 ∨ c.val = 0x202f ∨ c.val = 0x205f ∨ c.val = 0x3000

/-- JS truthiness for a nullable string (`null`/`undefined`/`''` are falsy). -/
def strTruthy : Option String → Bool
  | none => false
  | some s => s ≠ ""

/-- `a || b` on a nullable string with a string fallback. -/
def jsOrStr (a : Option String) (b : String) : String :=
  match a with
  | some s => if s = "" then b else s
  | none => b

/-- `a || b` on two nullable strings. -/
def jsOrOpt (a b : Option String) : Option String :=
  if strTruthy a then a else b

/-! ## Severity levels (`src/src/types.ts`, and the numeric map used by
`shouldLog`: `{ error: 0, warn: 1, info: 2, debug: 3 }`). -/

inductive LogLevel where
  | error | warn | info | debug
  deriving Repr, DecidableEq

/-- The numeric severity used for the `<=` comparison in `shouldLog`. -/
def levelNum : LogLevel → Nat
  | .error => 0
  | .warn => 1
  | .info => 2
  | .debug => 3

/-- `level.toUpperCase()` for the level strings. -/
def levelUpper : LogLevel → String
  | .error => "ERROR"
  | .warn => "WARN"
  | .info => "INFO"
  | .debug => "DEBUG"

/-! ## The state container (`src/src/config.ts`). -/

/-- The mutable configuration record (`const config: DebugConfig`), restricted
to the fields with behaviour. -/
structure DebugConfig where
  namespaceOverride : Option String
  globalNamespace : Option String
  defaultLogLevel : LogLevel
  currentLogLevel : LogLevel
  debugEnabled : Bool
  formatTemplate : String
  callbackFormatTemplate : String
  colorDebug : String
  colorInfo : String
  colorWarn : String
  colorError : String
  messageColor : String
  deriving Repr, DecidableEq

/-- The initial configuration values from `config.ts`. -/
def initialConfig : DebugConfig where
  namespaceOverride := none
  globalNamespace := none
  defaultLogLevel := .error
  currentLogLevel := .error
  debugEnabled := false
  formatTemplate := "[\x7bnamespace\x7d] \x7bclass\x7d.\x7bmethod\x7d: \x7bmessage\x7d"
  callbackFormatTemplate := "[\x7bnamespace\x7d] \x7bclass\x7d (callback): \x7bmessage\x7d"
  colorDebug := "#7B68EE"
  colorInfo := "#4169E1"
  colorWarn := "#FF8C00"
  colorError := "#DC143C"
  messageColor := "#ffffff"

/-- `getNamespace()`: the override if truthy, else the global namespace if
truthy, else the literal fallback. -/
def getNamespace (c : DebugConfig) : String :=
  jsOrStr c.namespaceOverride (jsOrStr c.globalNamespace "obsidian-plugin")

/-- `debugColors[level]`. -/
def colorOf (c : DebugConfig) : LogLevel → String
  | .debug => c.colorDebug
  | .info => c.colorInfo
  | .warn => c.colorWarn
  | .error => c.colorError

/-! ## The debug controller API over the config (controller module).

`enable` / `disable` / `enabled` / `setLevel` / `getLevel` close over the
shared config; all revisions of the controller perform the same mutations on
the own-namespace path, which is the one `shouldLog` exercises. -/

def debugEnable (c : DebugConfig) (level : LogLevel) : DebugConfig :=
  { c with debugEnabled := true, currentLogLevel := level }

def debugDisable (c : DebugConfig) : DebugConfig :=
  { c with debugEnabled := false, currentLogLevel := .error }

def debugEnabledQ (c : DebugConfig) : Bool :=
  c.debugEnabled

/-- `setLevel(level)`: sets the level and, when debugging is off and the level
is not `error`, turns the enabled flag on. -/
def debugSetLevel (c : DebugConfig) (level : LogLevel) : DebugConfig :=
  let c := { c with currentLogLevel := level }
  if ¬c.debugEnabled ∧ level ≠ .error then { c with debugEnabled := true } else c

/-- `getLevel()`: the current level when enabled, otherwise `null`. -/
def debugGetLevel (c : DebugConfig) : Option LogLevel :=
  if c.debugEnabled then some c.currentLogLevel else none

/-- `shouldLog` (`src/src/loggers.ts`): `error` always passes; otherwise the
controller must report enabled and the level must be within the current one.
(The window and controller are taken as present; a `null` `getLevel` result is
falsy and yields `false`.) -/
def shouldLog (c : DebugConfig) (level : LogLevel) : Bool :=
  if level = .error then true
  else if ¬debugEnabledQ c then false
  else
    match debugGetLevel c with
    | none => false
    | some cur => levelNum level ≤ levelNum cur

/-! ## The log-history buffer (`src/src/config.ts`). -/

/-- A JS value: primitives carry their `String(value)` rendering; objects are
references into an explicit store. `finite` on a number marks a finite value
(JSON renders non-finite numbers as `null`). -/
inductive JSVal where
  | vnull
  | vundef
  | vbool (b : Bool)
  | vnum (rep : String) (finite : Bool)
  | vstr (s : String)
  | vref (id : Nat)
  deriving Repr, DecidableEq

/-- One stored log entry (`LogEntry` of `src/src/types.ts`); the timestamp is
an abstract instant. -/
structure LogEntry where
  timestamp : Nat
  level : LogLevel
  ns : String
  className : Option String
  methodName : Option String
  message : String
  args : List JSVal
  formattedMessage : String
  deriving Repr, DecidableEq

def MAX_LOG_ENTRIES : Nat := 1000

/-- `addLogEntry`: push, then shift the oldest entry off when the buffer holds
more than `MAX_LOG_ENTRIES`. -/
def addLogEntry (logHistory : List LogEntry) (entry : LogEntry) : List LogEntry :=
  let h := logHistory ++ [entry]
  if MAX_LOG_ENTRIES < h.length then h.tail else h

/-- `getLogHistory(namespace?)`: the whole buffer when the argument is absent
or falsy, else the entries of that namespace. -/
def getLogHistory (logHistory : List LogEntry) (nsp : Option String) : List LogEntry :=
  match nsp with
  | none => logHistory
  | some n => if n = "" then logHistory else logHistory.filter (fun e => e.ns = n)

/-- `clearLogHistory(namespace?)`: with a truthy namespace, remove exactly the
matching entries (the backwards splice loop); otherwise empty the buffer. -/
def clearLogHistory (logHistory : List LogEntry) (nsp : Option String) : List LogEntry :=
  match nsp with
  | some n => if n = "" then [] else logHistory.filter (fun e => e.ns ≠ n)
  | none => []

/-- The most recent `n` elements of a list, in their original order: the
specification-side reading of "the most recent `count` entries in
chronological order". -/
def mostRecent (n : Nat) (l : List LogEntry) : List LogEntry :=
  (l.reverse.take n).reverse

/-- `logs.slice(-count)` for a nonnegative `count` (`-0` is `0`, which slices
the whole array). -/
def jsSliceNeg (l : List LogEntry) (count : Nat) : List LogEntry :=
  if count = 0 then l else l.drop (l.length - count)

/-! ## String primitives used by the source (JS semantics). -/

/-- `String.prototype.replace` with a plain-string pattern: replace the first
occurrence only (the replacement is inserted literally). -/
def replaceOnceCh (pat repl : List Char) : List Char → List Char
  | [] => if pat.isPrefixOf ([] : List Char) then repl else []
  | c :: rest =>
    if pat.isPrefixOf (c :: rest) then repl ++ (c :: rest).drop pat.length
    else c :: replaceOnceCh pat repl rest

def jsReplaceOnce (s pat repl : String) : String :=
  ⟨replaceOnceCh pat.data repl.data s.data⟩

/-- Scanner state for whitespace-run collapsing: outside a run, one pending
whitespace character, or inside a run whose replacement is already emitted. -/
inductive WsSt where
  | outside
  | one (c : Char)
  | many

/-- `.replace(/\s\s+/g, ' ')`, single pass: each run of two or more whitespace
characters becomes a single space; an isolated whitespace character is kept
verbatim. -/
def collapseAux : WsSt → List Char → List Char
  | st, [] => match st with | .one c => [c] | _ => []
  | st, c :: rest =>
    if jsWs c then
      match st with
      | .outside => collapseAux (.one c) rest
      | .one _ => ' ' :: collapseAux .many rest
      | .many => collapseAux .many rest
    else
      match st with
      | .one p => p :: c :: collapseAux .outside rest
      | _ => c :: collapseAux .outside rest

def collapseWsCh (l : List Char) : List Char :=
  collapseAux .outside l

def collapseWs (s : String) : String :=
  ⟨collapseWsCh s.data⟩

/-- `String.prototype.trim`. -/
def jsTrim (s : String) : String :=
  ⟨((s.data.dropWhile jsWs).reverse.dropWhile jsWs).reverse⟩

def isInfixOfCh (pat : List Char) : List Char → Bool
  | [] => pat.isPrefixOf ([] : List Char)
  | c :: rest => pat.isPrefixOf (c :: rest) ∨ isInfixOfCh pat rest

/-- `String.prototype.includes` for a plain-string argument. -/
def jsIncludes (s sub : String) : Bool :=
  isInfixOfCh sub.data s.data

/-- `String.prototype.split` with a one-character separator. -/
def splitOnCh (sep : Char) : List Char → List (List Char)
  | [] => [[]]
  | c :: rest =>
    match splitOnCh sep rest with
    | [] => [[c]]
    | g :: gs => if c = sep then [] :: g :: gs else (c :: g) :: gs

def jsSplitChar (s : String) (sep : Char) : List String :=
  (splitOnCh sep s.data).map String.mk

/-- `String.prototype.toLowerCase` (ASCII case mapping). -/
def jsToLower (s : String) : String :=
  ⟨s.data.map Char.toLower⟩

/-- `String.prototype.startsWith`. -/
def jsStartsWith (s pre : String) : Bool :=
  pre.data.isPrefixOf s.data

/-! ## The class registry (`src/src/class-registry.ts`).

The `WeakMap` keyed by live objects is modelled as an association list keyed
by object identities (`Nat` ids); an instance's constructor is a further
object identity.  Lookup returns the most recent binding, matching
`WeakMap.set` overwrite semantics. -/

abbrev Registry := List (Nat × String)

def lookupReg (reg : Registry) (k : Nat) : Option String :=
  (reg.find? (fun p => p.1 = k)).map (fun p => p.2)

/-- `registerLoggerClass(instance, originalName)`: no-op unless both are
truthy; binds the instance and, when distinct, its constructor. -/
def registerLoggerClass (reg : Registry) (instanceId : Nat) (ctorId : Option Nat)
    (originalName : String) : Registry :=
  if originalName = "" then reg
  else
    let reg' := (instanceId, originalName) :: reg
    match ctorId with
    | some c => if c ≠ instanceId then (c, originalName) :: reg' else reg'
    | none => reg'

/-- `getRegisteredClassName(instance)`: the direct binding, else the
constructor binding, else `null` (`get(...) || null` maps `''` to `null`). -/
def getRegisteredClassName (reg : Registry) (instanceId : Nat) (ctorId : Option Nat) :
    Option String :=
  match lookupReg reg instanceId with
  | some s => if s = "" then none else some s
  | none =>
    match ctorId with
    | some c =>
      match lookupReg reg c with
      | some s => if s = "" then none else some s
      | none => none
    | none => none

/-! ## Object store.

Objects live in an explicit store mapping identities to data; cyclic object
graphs are cycles through `vref` ids. -/

/-- The data of one JS object: array contents, own enumerable fields in
insertion order, the constructor's identity and `name`, and the DOM facet
(`nodeName` is `some` exactly when `nodeType && nodeName` is truthy). -/
structure ObjData where
  isArray : Bool
  elems : List JSVal
  fields : List (String × JSVal)
  ctorId : Option Nat
  ctorName : Option String
  nodeName : Option String
  domId : String
  domCls : String
  deriving Repr, DecidableEq

abbrev Store := List (Nat × ObjData)

def storeFind (st : Store) (id : Nat) : Option ObjData :=
  (st.find? (fun p => p.1 = id)).map (fun p => p.2)

/-- JS truthiness of a value (numbers are judged by their rendering). -/
def jsTruthy : JSVal → Bool
  | .vnull => false
  | .vundef => false
  | .vbool b => b
  | .vnum r _ => ¬(r = "0" ∨ r = "-0" ∨ r = "NaN")
  | .vstr s => s ≠ ""
  | .vref _ => true

/-- `getRegisteredClassName` applied to an arbitrary value: primitives are
never `WeakMap` keys, so only object references can resolve. -/
def getRegisteredClassNameV (st : Store) (reg : Registry) : JSVal → Option String
  | .vref id =>
    match storeFind st id with
    | some d => getRegisteredClassName reg id d.ctorId
    | none => none
  | _ => none

/-! ## Caller-context resolution output (stack-parser module).

`getCallerInfo()` captures and classifies the ambient stack; its result record
is taken as an input. `className`/`methodName` may be absent (`none`) or the
empty string (falsy in every guard of the formatters). -/

structure CallerInfo where
  className : Option String
  methodName : Option String
  isCallback : Bool
  deriving Repr, DecidableEq

/-! ## The prefix formatters (stack-parser module, current revision). -/

def phNamespace : String := "\x7bnamespace\x7d"
def phClass : String := "\x7bclass\x7d"
def phMethod : String := "\x7bmethod\x7d"
def phMessage : String := "\x7bmessage\x7d"

/-- The class/method/callback triple computed by a formatter before template
substitution (`derivedClassName`, `derivedMethodName`, `isCallbackContext`). -/
structure DerivedPrefix where
  className : Option String
  methodName : Option String
  isCallback : Bool
  deriving Repr, DecidableEq

def strContainsDot : Option String → Bool
  | some s => s.data.contains '.'
  | none => false

/-- The two trailing fix-ups shared by both formatters: split a dotted class
name without a method at its last dot, or a dotted method without a class at
its first dot; then flag callback context from the method name. -/
def deriveFixups (dcn dmn : Option String) (isCb : Bool) : DerivedPrefix :=
  let p1 : Option String × Option String :=
    if strTruthy dcn ∧ ¬strTruthy dmn ∧ strContainsDot dcn then
      let parts := jsSplitChar (dcn.getD "") '.'
      (some (String.intercalate "." parts.dropLast), some (parts.getLastD ""))
    else (dcn, dmn)
  let p2 : Option String × Option String :=
    if ¬strTruthy p1.1 ∧ strTruthy p1.2 ∧ strContainsDot p1.2 then
      let parts := jsSplitChar ((p1.2).getD "") '.'
      (some (parts.headD ""), some (String.intercalate "." parts.tail))
    else p1
  let flip : Bool :=
    strTruthy p2.2 ∧
      (jsIncludes (jsToLower (p2.2.getD "")) "callback" ∨
        jsStartsWith (jsToLower (p2.2.getD "")) "_on")
  ⟨p2.1, p2.2, if flip then true else isCb⟩

/-- The class-name-absent fix-ups applied after the main branch in both
formatters. -/
def deriveFallback (ci : CallerInfo) (dcn dmn : Option String) :
    Option String × Option String :=
  if ¬strTruthy dcn ∧ strTruthy ci.className ∧ ¬strTruthy ci.methodName then
    (dcn, ci.className)
  else if ¬strTruthy dcn ∧ strTruthy ci.className ∧ strTruthy ci.methodName then
    (ci.className, ci.methodName)
  else (dcn, dmn)

/-- The truthy context value, if any (`if (contextInstance)`). -/
def truthyCtx : Option JSVal → Option JSVal
  | some v => if jsTruthy v then some v else none
  | none => none

/-- `formatPrefixCustom`'s derivation of class, method and callback flag. -/
def derivePrefixCustom (st : Store) (reg : Registry) (component : Option String)
    (contextInstance : Option JSVal) (ci : CallerInfo) : DerivedPrefix :=
  let isCb := ci.isCallback
  let main : Option String × Option String :=
    match truthyCtx contextInstance with
    | some v =>
      let d0 := getRegisteredClassNameV st reg v
      if strTruthy ci.methodName ∧ ¬isCb then (d0, ci.methodName)
      else if strTruthy ci.methodName ∧ isCb ∧ ¬strTruthy d0 then
        (ci.className, ci.methodName)
      else (d0, none)
    | none =>
      if strTruthy component then (component, ci.methodName)
      else (ci.className, ci.methodName)
  let f := deriveFallback ci main.1 main.2
  deriveFixups f.1 f.2 isCb

/-- `formatPrefixOnly`'s derivation: identical to `formatPrefixCustom`'s
except that in the callback-with-unregistered-instance case only the class
name is taken from the stack (the method is left `null`). -/
def derivePrefixOnly (st : Store) (reg : Registry) (component : Option String)
    (contextInstance : Option JSVal) (ci : CallerInfo) : DerivedPrefix :=
  let isCb := ci.isCallback
  let main : Option String × Option String :=
    match truthyCtx contextInstance with
    | some v =>
      let d0 := getRegisteredClassNameV st reg v
      if strTruthy ci.methodName ∧ ¬isCb then (d0, ci.methodName)
      else if strTruthy ci.methodName ∧ isCb ∧ ¬strTruthy d0 then
        (ci.className, none)
      else (d0, none)
    | none =>
      if strTruthy component then (component, ci.methodName)
      else (ci.className, ci.methodName)
  let f := deriveFallback ci main.1 main.2
  deriveFixups f.1 f.2 isCb

/-- The template application of `formatPrefixCustom`: substitute
`\x7bnamespace\x7d`, `\x7bclass\x7d`, `\x7bmessage\x7d` (first occurrence
each), then `\x7bmethod\x7d` when the template mentions it, then collapse
whitespace runs and trim. -/
def applyTemplateCustom (template nsp cls mth msg : String) : String :=
  let result :=
    jsReplaceOnce (jsReplaceOnce (jsReplaceOnce template phNamespace nsp) phClass cls)
      phMessage msg
  let result :=
    if jsIncludes template phMethod then jsReplaceOnce result phMethod mth
    else result
  jsTrim (collapseWs result)

/-- The template application of `formatPrefixOnly`: substitute
`\x7bnamespace\x7d`, `\x7bclass\x7d`, then `\x7bmethod\x7d` when the
template mentions it, then remove `\x7bmessage\x7d` and trim, then collapse
whitespace runs and trim. -/
def applyTemplateOnly (template nsp cls mth : String) : String :=
  let result := jsReplaceOnce (jsReplaceOnce template phNamespace nsp) phClass cls
  let result :=
    if jsIncludes template phMethod then jsReplaceOnce result phMethod mth
    else result
  let result := jsTrim (jsReplaceOnce result phMessage "")
  jsTrim (collapseWs result)

/-- `formatPrefixCustom(component?, contextInstance?, message?)`: derive,
select the direct or callback template, then apply it. -/
def formatPrefixCustom (st : Store) (reg : Registry) (cfg : DebugConfig)
    (component : Option String) (contextInstance : Option JSVal) (ci : CallerInfo)
    (message : Option String) : String :=
  let nsp := getNamespace cfg
  let d := derivePrefixCustom st reg component contextInstance ci
  let template := if d.isCallback then cfg.callbackFormatTemplate else cfg.formatTemplate
  applyTemplateCustom template nsp (jsOrStr d.className "") (jsOrStr d.methodName "")
    (jsOrStr message "")

/-- `formatPrefixOnly(component?, contextInstance?)`: like the message form
but the `\x7bmessage\x7d` placeholder is removed (with a trim) instead of
substituted. -/
def formatPrefixOnly (st : Store) (reg : Registry) (cfg : DebugConfig)
    (component : Option String) (contextInstance : Option JSVal) (ci : CallerInfo) :
    String :=
  let nsp := getNamespace cfg
  let d := derivePrefixOnly st reg component contextInstance ci
  let template := if d.isCallback then cfg.callbackFormatTemplate else cfg.formatTemplate
  applyTemplateOnly template nsp (jsOrStr d.className "") (jsOrStr d.methodName "")

/-! ## Safe serialization (`safeStringify`, `src/src/loggers.ts`).

The `seen` `WeakSet` holds exactly the objects currently being rendered (each
call adds its object and the `finally` removes it), so it is passed down as
the ancestor set.  `JSON.stringify`'s replacer uses its own add-only set,
threaded through the traversal. -/

/-- `String(value)` for a value (`[object Object]` for object references,
which the emitter never hits because objects go through `safeStringify`). -/
def jsToString : JSVal → String
  | .vnull => "null"
  | .vundef => "undefined"
  | .vbool b => if b then "true" else "false"
  | .vnum r _ => r
  | .vstr s => s
  | .vref _ => "[object Object]"

/-- `typeof value` is neither `'object'` nor `'function'` (the key-property
filter of `safeStringify`; functions are not modelled as field values). -/
def typeofNotObject : JSVal → Bool
  | .vnull => false
  | .vref _ => false
  | _ => true

def lookupField (fields : List (String × JSVal)) (k : String) : Option JSVal :=
  (fields.find? (fun p => p.1 = k)).map (fun p => p.2)

/-- The up-to-three simple key properties (`name`, `id`, `type`, `status`,
`length`) shown next to a constructor or registered name. -/
def keyPropsOf (d : ObjData) : List String :=
  ((["name", "id", "type", "status", "length"].filterMap (fun k =>
    match lookupField d.fields k with
    | some v => if typeofNotObject v then some (k ++ ": " ++ jsToString v) else none
    | none => none))).take 3

/-- JSON string escaping for `JSON.stringify`. -/
def jsonQuoteChar (c : Char) : String :=
  if c = '"' then "\\\""
  else if c = '\\' then "\\\\"
  else if c = '\n' then "\\n"
  else if c = '\r' then "\\r"
  else if c = '\t' then "\\t"
  else if c = '\x08' then "\\b"
  else if c = '\x0c' then "\\f"
  else if c.val < 0x20 then
    "\\u00" ++ String.mk [Nat.digitChar (c.val.toNat / 16), Nat.digitChar (c.val.toNat % 16)]
  else String.singleton c

def jsonQuote (s : String) : String :=
  "\"" ++ String.join (s.data.map jsonQuoteChar) ++ "\""

/-- Render a list of array elements left to right, threading the replacer's
seen-set (`undefined` elements render as `null`). -/
def jsonRenderArrayWith (f : List Nat → JSVal → Option String × List Nat) :
    List Nat → List JSVal → List String × List Nat
  | seen, [] => ([], seen)
  | seen, v :: rest =>
    let r := f seen v
    let rs := jsonRenderArrayWith f r.2 rest
    ((r.1.getD "null") :: rs.1, rs.2)

/-- Render object fields left to right, threading the replacer's seen-set
(fields whose value renders as `undefined` are omitted). -/
def jsonRenderFieldsWith (f : List Nat → JSVal → Option String × List Nat) :
    List Nat → List (String × JSVal) → List String × List Nat
  | seen, [] => ([], seen)
  | seen, (k, v) :: rest =>
    let r := f seen v
    let rs := jsonRenderFieldsWith f r.2 rest
    (match r.1 with
     | some out => (jsonQuote k ++ ":" ++ out) :: rs.1
     | none => rs.1, rs.2)

/-- `JSON.stringify(value, replacer)` with the cycle-marking replacer: a
revisited object becomes the string `"[Circular]"`; `undefined` is omitted in
objects and `null` in arrays.  `none` means the JSON result is `undefined`.
The fuel only bounds descent through object references; the add-only
`tempSeen` set makes `store.length + 1` always sufficient. -/
def jsonRender (st : Store) : Nat → List Nat → JSVal → Option String × List Nat
  | _, seen, .vnull => (some "null", seen)
  | _, seen, .vundef => (none, seen)
  | _, seen, .vbool b => (some (if b then "true" else "false"), seen)
  | _, seen, .vnum r fin => (some (if fin then r else "null"), seen)
  | _, seen, .vstr s => (some (jsonQuote s), seen)
  | gas, seen, .vref id =>
    if id ∈ seen then (some (jsonQuote "[Circular]"), seen)
    else
      match gas with
      | 0 => (some "null", id :: seen)
      | gas + 1 =>
        match storeFind st id with
        | none => (some "null", id :: seen)
        | some d =>
          if d.isArray then
            let p := jsonRenderArrayWith (jsonRender st gas) (id :: seen) d.elems
            (some ("[" ++ String.intercalate "," p.1 ++ "]"), p.2)
          else
            let p := jsonRenderFieldsWith (jsonRender st gas) (id :: seen) d.fields
            (some ("\x7b" ++ String.intercalate "," p.1 ++ "\x7d"), p.2)

/-- The `JSON.stringify` attempt inside `safeStringify` (fresh `tempSeen`). -/
def jsonAttempt (st : Store) (v : JSVal) : Option String :=
  (jsonRender st (st.length + 1) [] v).1

/-- The identifier-shaped-key test `/^[a-zA-Z_$][a-zA-Z0-9_$]*$/` used to
decide whether a property key is printed unquoted. -/
def isIdentKey (s : String) : Bool :=
  match s.data with
  | [] => false
  | c :: cs =>
    (('a' ≤ c && c ≤ 'z') || ('A' ≤ c && c ≤ 'Z') || c == '_' || c == '$') &&
      cs.all (fun c =>
        ('a' ≤ c && c ≤ 'z') || ('A' ≤ c && c ≤ 'Z') ||
          ('0' ≤ c && c ≤ '9') || c == '_' || c == '$')

/-- `stringifyWithCircularCheck(value, depth)`, with `gas = maxDepth - depth`
(the depth guard `depth >= maxDepth` is `gas = 0`). -/
def stringifyWithCircularCheck (st : Store) (reg : Registry) :
    Nat → List Nat → JSVal → String
  | _, _, .vnull => "null"
  | _, _, .vundef => "undefined"
  | _, _, .vbool b => if b then "true" else "false"
  | _, _, .vnum r _ => r
  | _, _, .vstr s => s
  | gas, seen, .vref id =>
    if id ∈ seen then "[Circular]"
    else
      match storeFind st id with
      | none => "[Object]"
      | some d =>
        if d.isArray then
          match gas with
          | 0 => "[Array...]"
          | gas + 1 =>
            let items := (d.elems.take 5).map
              (stringifyWithCircularCheck st reg gas (id :: seen))
            "[" ++ String.intercalate ", " items ++
              (if 5 < d.elems.length then
                ", ..." ++ toString (d.elems.length - 5) ++ " more"
              else "") ++ "]"
        else
          match d.nodeName with
          | some nn =>
            "<" ++ jsToLower nn ++
              (if d.domId ≠ "" then " id=\"" ++ d.domId ++ "\"" else "") ++
              (if d.domCls ≠ "" then " class=\"" ++ d.domCls ++ "\"" else "") ++ ">"
          | none =>
            match gas with
            | 0 => "[Object...]"
            | gas + 1 =>
              let jres := jsonAttempt st (.vref id)
              let jsOk : Bool := match jres with
                | some js => !(js == "") && !(js == "\x7b\x7d") && !(jsIncludes js "[Circular]")
                | none => false
              if jsOk then jres.getD "" else
              let props (rn : String) : String :=
                let kp := keyPropsOf d
                rn ++ (if kp ≠ [] then " \x7b" ++ String.intercalate ", " kp ++ "\x7d" else "")
              let ctorOk : Bool := match d.ctorName with
                | some cn => !(cn == "") && !(cn == "Object") && !(cn == "Function")
                | none => false
              if ctorOk then props ((d.ctorName).getD "") else
              match getRegisteredClassName reg id d.ctorId with
              | some rn => props rn
              | none =>
                let keys := d.fields.map (fun p => p.1)
                if keys = [] then "\x7b\x7d"
                else
                  let keysToShow := if keys.length ≤ 5 then d.fields else d.fields.take 5
                  let prps := keysToShow.map (fun p =>
                    (if isIdentKey p.1 then p.1 else "\"" ++ p.1 ++ "\"") ++ ": " ++
                      stringifyWithCircularCheck st reg gas (id :: seen) p.2)
                  "\x7b" ++ String.intercalate ", " prps ++
                    (if 5 < keys.length then ", ..." else "") ++ "\x7d"

/-- `safeStringify(obj, maxDepth = 3)`. -/
def safeStringify (st : Store) (reg : Registry) (obj : JSVal) (maxDepth : Nat := 3) :
    String :=
  stringifyWithCircularCheck st reg maxDepth [] obj

/-! ## The log emitter (`log`, `src/src/loggers.ts`).

The console is modelled as the list of performed console calls, each the
chosen method (by level) with its argument strings. -/

/-- `parseLogArgs(args)`: with more than one argument, a leading space-free
string is a component override and a leading non-null object is a context
instance; anything else leaves the argument list untouched. -/
structure ParsedArgs where
  component : Option String
  contextInstance : Option JSVal
  logArgs : List JSVal
  deriving Repr, DecidableEq

def parseLogArgs (args : List JSVal) : ParsedArgs :=
  if 1 < args.length then
    match args with
    | .vstr s :: rest =>
      if jsIncludes s " " then ⟨none, none, args⟩ else ⟨some s, none, rest⟩
    | .vref id :: rest => ⟨none, some (.vref id), rest⟩
    | _ => ⟨none, none, args⟩
  else ⟨none, none, args⟩

/-- One argument rendered for the message: objects via `safeStringify`,
everything else via `String(arg)`. -/
def stringifyArg (st : Store) (reg : Registry) : JSVal → String
  | .vref id => safeStringify st reg (.vref id)
  | v => jsToString v

/-- The mutable state the emitter touches: the history buffer and the console
(as the list of console calls made: method level and argument strings). -/
structure LogState where
  hist : List LogEntry
  console : List (LogLevel × List String)
  deriving Repr, DecidableEq

/-- `log(level, ...args)`: gate on `shouldLog`; parse the arguments; in the
method-override branch (truthy component, leading identifier-shaped string
argument) format with `formatPrefixCustom(component, methodOverride)`, else
with `formatPrefixOnly(component, contextInstance)`; append the entry to the
history and emit one console call (format string plus one style per `%c`). -/
def log (st : Store) (reg : Registry) (ci : CallerInfo) (cfg : DebugConfig)
    (level : LogLevel) (args : List JSVal) (ts : Nat) (s : LogState) : LogState :=
  if shouldLog cfg level then
    let pa := parseLogArgs args
    let ov : Option (String × List JSVal) :=
      if strTruthy pa.component then
        match pa.logArgs with
        | .vstr m :: rest => if isIdentKey m then some (m, rest) else none
        | _ => none
      else none
    let q : String × String × Option String × Option String :=
      match ov with
      | some (m, remaining) =>
        (formatPrefixCustom st reg cfg pa.component (some (.vstr m)) ci none,
         String.intercalate " " (remaining.map (stringifyArg st reg)),
         pa.component, some m)
      | none =>
        (formatPrefixOnly st reg cfg pa.component pa.contextInstance ci,
         String.intercalate " " (pa.logArgs.map (stringifyArg st reg)),
         if strTruthy pa.component then pa.component else ci.className,
         ci.methodName)
    let entry : LogEntry :=
      ⟨ts, level, getNamespace cfg, q.2.2.1, q.2.2.2, q.2.1, pa.logArgs,
        q.1 ++ " " ++ q.2.1⟩
    let px := "color:" ++ colorOf cfg level ++ ";font-weight:bold;"
    let mx := "color:" ++ cfg.messageColor ++ ";font-weight:normal;"
    let call : List String :=
      if q.2.1 ≠ "" then ["%c" ++ q.1 ++ " %c" ++ q.2.1, px, mx]
      else ["%c" ++ q.1, px]
    ⟨addLogEntry s.hist entry, s.console ++ [(level, call)]⟩
  else s

/-! ## Path simplification (`simplifyPath`, `src/src/controller.ts`).

The four `pathPatterns` regex literals are embedded as a small
regular-expression syntax with a backtracking matcher whose alternation and
greedy-repetition preference order is that of a JS regex; `\s` is the JS
whitespace class `jsWs`. -/

inductive RE where
  | eps : RE
  | cls (p : Char → Bool) : RE
  | seq (a b : RE) : RE
  | alt (a b : RE) : RE
  | star (r : RE) : RE

/-- `r+` is `r r*`. -/
def RE.plus (r : RE) : RE := .seq r (.star r)

/-- `r?`. -/
def RE.opt (r : RE) : RE := .alt r .eps

def reCh (c : Char) : RE := .cls (fun x => x == c)

/-- Backtracking matcher in continuation style: alternatives are tried left
to right and repetition prefers the longer match, so the first success is the
JS match.  The fuel bounds the call depth and is kept generously above any
reachable nesting. -/
def reRun : Nat → RE → List Char → (List Char → Option (List Char)) → Option (List Char)
  | 0, _, _, _ => none
  | _ + 1, .eps, s, k => k s
  | _ + 1, .cls p, s, k =>
    match s with
    | [] => none
    | c :: rest => if p c then k rest else none
  | f + 1, .seq a b, s, k => reRun f a s (fun s1 => reRun f b s1 k)
  | f + 1, .alt a b, s, k =>
    match reRun f a s k with
    | some r => some r
    | none => reRun f b s k
  | f + 1, .star r, s, k =>
    match reRun f r s (fun s1 => reRun f (.star r) s1 k) with
    | some r => some r
    | none => k s

/-- `[A-Za-z]`. -/
def azAZ (c : Char) : Bool := ('A' ≤ c && c ≤ 'Z') || ('a' ≤ c && c ≤ 'z')

/-- The segment class of the Windows patterns, `[^\\\/\n\r\t<>":|?*]`. -/
def segChar (c : Char) : Bool :=
  !(c == '\\' || c == '/' || c == '\n' || c == '\r' || c == '\t' ||
    c == '<' || c == '>' || c == '"' || c == ':' || c == '|' || c == '?' || c == '*')

/-- The segment class of the POSIX and relative patterns, `[^\/\n\r\t<>":|?*]`
(a backslash is allowed). -/
def psegChar (c : Char) : Bool :=
  !(c == '/' || c == '\n' || c == '\r' || c == '\t' ||
    c == '<' || c == '>' || c == '"' || c == ':' || c == '|' || c == '?' || c == '*')

/-- `[^\\]`. -/
def notBS (c : Char) : Bool := !(c == '\\')

/-- `[\s(]`, the anchor class of the POSIX and relative patterns. -/
def anchorCls (c : Char) : Bool := jsWs c || c == '('

/-- Two literal backslashes (`\\\\` in the regex literal). -/
def bs2 : RE := .seq (reCh '\\') (reCh '\\')

/-- `pathPatterns[0]`: JSON-escaped Windows or UNC paths. -/
def pat0 : RE :=
  .seq (.alt (.seq (.cls azAZ) (.seq (reCh ':') bs2))
             (.seq (.seq bs2 bs2)
                   (.seq (RE.plus (.cls notBS)) (.seq bs2 (.seq (RE.plus (.cls notBS)) bs2)))))
    (.seq (.star (.seq (RE.plus (.cls segChar)) bs2))
          (.seq (RE.plus (.cls segChar)) (.seq bs2 (RE.plus (.cls segChar)))))

/-- `[\\\/]`. -/
def bsOrSlash : RE := .cls (fun c => c == '\\' || c == '/')

/-- `pathPatterns[1]`: raw Windows drive or UNC paths. -/
def pat1 : RE :=
  .seq (.alt (.seq (.cls azAZ) (.seq (reCh ':') (reCh '\\')))
             (.seq bs2
                   (.seq (RE.plus (.cls notBS)) (.seq (reCh '\\') (.seq (RE.plus (.cls notBS)) (reCh '\\'))))))
    (.seq (.star (.seq (RE.plus (.cls segChar)) bsOrSlash))
          (.seq (RE.plus (.cls segChar)) (.seq bsOrSlash (RE.plus (.cls segChar)))))

/-- `pathPatterns[2]` after its `(?:^|[\s(])` anchor: POSIX absolute paths. -/
def pat2core : RE :=
  .seq (reCh '/')
    (.seq (.star (.seq (RE.plus (.cls psegChar)) (reCh '/')))
          (.seq (RE.plus (.cls psegChar)) (.seq (reCh '/') (RE.plus (.cls psegChar)))))

/-- `pathPatterns[3]` after its anchor: the marker group `(\.\.\?\/)` — the
`?` is escaped, so it is the literal four-character marker `..?/` (a plain
`./` or `../` never matches) — followed by the segments. -/
def pat3core : RE :=
  .seq (.seq (reCh '.') (.seq (reCh '.') (.seq (reCh '?') (reCh '/'))))
    (.seq (.star (.seq (RE.plus (.cls psegChar)) (reCh '/')))
          (.seq (RE.plus (.cls psegChar)) (.seq (reCh '/') (RE.plus (.cls psegChar)))))

def reFuel (s : List Char) : Nat := 64 * (s.length + 4)

/-- The match attempt at one position: the number of characters the pattern
consumes, under the JS preference order. -/
def reMatchAt (r : RE) (s : List Char) : Option Nat :=
  match reRun (reFuel s) r s some with
  | some rest => some (s.length - rest.length)
  | none => none

/-- `String.prototype.replace` with a `g` regex and a callback on the whole
match: scan left to right, replacing non-overlapping leftmost matches.  The
`atStart`/`mid` forms differ only for the anchored patterns, whose `^`
alternative applies at index 0 only (no `m` flag). -/
def jsReplaceG (atStart mid : RE) (cb : String → String) :
    Nat → List Char → Bool → String
  | 0, _, _ => ""
  | _ + 1, [], _ => ""
  | f + 1, c :: rest, isStart =>
    match reMatchAt (if isStart then atStart else mid) (c :: rest) with
    | some n =>
      if 0 < n then
        cb (String.mk ((c :: rest).take n)) ++
          jsReplaceG atStart mid cb f ((c :: rest).drop n) false
      else String.singleton c ++ jsReplaceG atStart mid cb f rest false
    | none => String.singleton c ++ jsReplaceG atStart mid cb f rest false

/-- One `result.replace(pattern, cb)` pass.  For the anchored patterns the
pattern is `(?:^|[\s(])` followed by the core, with `^` tried first. -/
def runPass (pat : RE) (anchored : Bool) (cb : String → String) (text : String) :
    String :=
  let atStart := if anchored then RE.seq (.alt .eps (.cls anchorCls)) pat else pat
  let mid := if anchored then RE.seq (.cls anchorCls) pat else pat
  jsReplaceG atStart mid cb (text.length + 1) text.data true

/-- `String.prototype.split` on a one-character class (`/[\\\/]/`). -/
def splitOnP (p : Char → Bool) : List Char → List (List Char)
  | [] => [[]]
  | c :: rest =>
    match splitOnP p rest with
    | [] => [[c]]
    | g :: gs => if p c then [] :: g :: gs else (c :: g) :: gs

/-- `match.split('\\\\')`: split on the two-character double-backslash
string, leftmost non-overlapping. -/
def splitBBAux (acc : List Char) : List Char → List (List Char)
  | '\\' :: '\\' :: rest => acc.reverse :: splitBBAux [] rest
  | c :: rest => splitBBAux (c :: acc) rest
  | [] => [acc.reverse]

def splitBB (s : List Char) : List (List Char) := splitBBAux [] s

/-- `segments.slice(-2).join('/')` on a list known to have length two or
more. -/
def lastTwoJoin (segs : List String) : String :=
  String.intercalate "/" (segs.drop (segs.length - 2))

/-- The callback of the escaped-Windows pass. -/
def winEscCb (m : String) : String :=
  let segments := ((splitBB m.data).map String.mk).filter (fun s => s ≠ "")
  if 2 ≤ segments.length then ".../" ++ lastTwoJoin segments else m

/-- The callback of the raw-Windows/UNC pass. -/
def winRawCb (m : String) : String :=
  let segments :=
    ((splitOnP (fun c => c == '\\' || c == '/') m.data).map String.mk).filter
      (fun s => s ≠ "")
  if 2 ≤ segments.length then ".../" ++ lastTwoJoin segments else m

/-- The callback of the POSIX pass: trim, split, and re-attach the matched
leading whitespace (a consumed `(` anchor is dropped). -/
def posixCb (m : String) : String :=
  let clean := jsTrim m
  let segments :=
    ((splitOnP (fun c => c == '/') clean.data).map String.mk).filter (fun s => s ≠ "")
  if 2 ≤ segments.length then
    String.mk (m.data.takeWhile jsWs) ++ ".../" ++ lastTwoJoin segments
  else m

/-- `match.match(/(\.\.\?\/?)/)?.[1] ?? './'`: the first occurrence of two
literal dots, a literal question mark and an optional slash (both dots and
the `?` are escaped in the source). -/
def relMarker : List Char → String
  | '.' :: '.' :: '?' :: '/' :: _ => "..?/"
  | '.' :: '.' :: '?' :: _ => "..?"
  | _ :: rest => relMarker rest
  | [] => "./"

/-- The callback of the relative pass: leading whitespace, then the relative
marker, then the remainder of the match split into segments (a consumed `(`
anchor is dropped because only `\s*` is re-attached). -/
def relCb (m : String) : String :=
  let lead := m.data.takeWhile jsWs
  let rp := relMarker m.data
  let pathPart := m.data.drop (lead.length + rp.length)
  let segments :=
    ((splitOnP (fun c => c == '/') pathPart).map String.mk).filter (fun s => s ≠ "")
  if 2 ≤ segments.length then
    String.mk lead ++ rp ++ ".../" ++ lastTwoJoin segments
  else m

/-- `simplifyPath(text)`: the four replacement passes in source order. -/
def simplifyPath (text : String) : String :=
  runPass pat3core true relCb
    (runPass pat2core true posixCb
      (runPass pat1 false winRawCb
        (runPass pat0 false winEscCb text)))

/-! ## The export/clear surface of the controller (`src/unnamed/part_000`). -/

/-- The clipboard text written by `copyLogs` for `format: 'message-only'`
with `simplifyPaths` left at its default `true`: the selected entries are the
last `count` of the namespace filter, and `none` stands for the early "No
logs found" return that writes nothing. -/
def copyLogsMessageOnly (hist : List LogEntry) (nsp : String) (count : Nat) :
    Option String :=
  let logs := jsSliceNeg (getLogHistory hist (some nsp)) count
  if logs.length = 0 then none
  else some (simplifyPath (String.intercalate "\n" (logs.map (fun l => l.message))))

/-- `clearLogs(ns?)`: resolve the target namespace, then call
`clearLogHistory()` — in both branches without an argument. -/
def clearLogs (hist : List LogEntry) (cfg : DebugConfig) (ns : Option String) :
    List LogEntry × String :=
  let targetNamespace := if strTruthy ns then ns.getD "" else getNamespace cfg
  if targetNamespace = "*" then
    (clearLogHistory hist none, "All log history cleared")
  else
    (clearLogHistory hist none,
      "Log history cleared for namespace: " ++ targetNamespace)

/-- Adjacent characters are not both whitespace. -/
def nodub (a b : Char) : Prop := ¬(jsWs a = true ∧ jsWs b = true)

/-- A token that is whitespace-free and free of `\x7b` (no placeholder can
start inside it, and it cannot create whitespace runs). -/
abbrev plainTok (s : String) : Prop := ∀ c ∈ s.data, jsWs c = false ∧ c ≠ '\x7b'

/-- A string in which no placeholder can start. -/
abbrev braceFree (s : String) : Prop := ∀ c ∈ s.data, c ≠ '\x7b'

/-- A block is `pat`-skippable if first-occurrence replacement always passes
over it. -/
def SkipsPat (pat repl w : List Char) : Prop :=
  ∀ rest, replaceOnceCh pat repl (w ++ rest) = w ++ replaceOnceCh pat repl rest

/-- A concrete 1001-entry append sequence used to exercise the capacity
bound. -/
def overflowSeq : List LogEntry :=
  List.replicate 1001 ⟨0, .error, "ns", none, none, "m", [], "f"⟩

/-- The default direct template of `config.ts`. -/
def directTemplate : String :=
  "[\x7bnamespace\x7d] \x7bclass\x7d.\x7bmethod\x7d: \x7bmessage\x7d"

/-! ## Concrete sample data. -/

/-- A cyclic instance: a single object whose `self` field references itself,
with constructor name `Foo`. -/
def cyclicFooStore : Store :=
  [(1, ⟨false, [], [("self", .vref 1)], none, some "Foo", none, "", ""⟩)]

/-- A cyclic plain object: the `self` field references the object itself and
no constructor name, DOM facet or registration applies. -/
def selfRefStore : Store :=
  [(1, ⟨false, [], [("self", .vref 1)], none, none, none, "", ""⟩)]

/-- A minimal stored entry of a namespace with a given message. -/
def plainEntry (i : Nat) (nsp msg : String) : LogEntry :=
  ⟨i, .info, nsp, none, none, msg, [], msg⟩

/-- Five entries of the plugin namespace with messages `a` … `e`. -/
def fiveMsgHist : List LogEntry :=
  [plainEntry 0 "obsidian-plugin" "a", plainEntry 1 "obsidian-plugin" "b",
   plainEntry 2 "obsidian-plugin" "c", plainEntry 3 "obsidian-plugin" "d",
   plainEntry 4 "obsidian-plugin" "e"]

/-- A two-namespace history: one `alpha` entry, then one `beta` entry. -/
def twoNsHist : List LogEntry :=
  [plainEntry 0 "alpha" "a", plainEntry 1 "beta" "b"]

/-! ## Supporting lemmas. -/

theorem plainTok.braceFree {s : String} (h : plainTok s) : braceFree s :=
  fun c hc => (h c hc).2

/-- Replacing at an immediate match consumes exactly the pattern. -/
theorem replaceOnce_here (pat repl rest : List Char) (hne : pat ≠ []) :
    replaceOnceCh pat repl (pat ++ rest) = repl ++ rest := by
  match pat, hne with
  | p :: ps, _ =>
    have hpre : (p :: ps).isPrefixOf ((p :: ps) ++ rest) = true := by
      simp [List.isPrefixOf_iff_prefix]
    simp only [List.cons_append, replaceOnceCh]
    rw [if_pos (by simp [List.isPrefixOf_iff_prefix])]
    simp

/-- Replacement passes over a leading block containing no `\x7b` when the
pattern starts with `\x7b`. -/
theorem replaceOnce_append_noLBrace (p' repl w rest : List Char)
    (hw : ∀ c ∈ w, c ≠ '\x7b') :
    replaceOnceCh ('\x7b' :: p') repl (w ++ rest)
      = w ++ replaceOnceCh ('\x7b' :: p') repl rest := by
  induction w with
  | nil => simp
  | cons c w' ih =>
    have hc : c ≠ '\x7b' := hw c (by simp)
    have hnp : ('\x7b' :: p').isPrefixOf (c :: (w' ++ rest)) = false := by
      simp [List.isPrefixOf]
      intro he
      exact absurd he.symm hc
    simp only [List.cons_append, replaceOnceCh]
    rw [if_neg (by simp [hnp])]
    simp [ih (fun c hc' => hw c (by simp [hc']))]

/-- A whitespace-free block keeps `collapseAux` in the outside state. -/
theorem collapseAux_outside_nonws (w rest : List Char)
    (hw : ∀ c ∈ w, jsWs c = false) :
    collapseAux .outside (w ++ rest) = w ++ collapseAux .outside rest := by
  induction w with
  | nil => simp
  | cons c w' ih =>
    have hc : jsWs c = false := hw c (by simp)
    simp [collapseAux, hc, ih (fun c hc' => hw c (by simp [hc']))]

/-- Whitespace-run collapsing leaves a string without adjacent whitespace
pairs unchanged. -/
theorem collapseAux_id (l : List Char) (h : List.Chain' nodub l) :
    collapseAux .outside l = l := by
  induction l with
  | nil => rfl
  | cons c rest ih =>
    by_cases hc : jsWs c = true
    · cases rest with
      | nil => simp [collapseAux, hc]
      | cons d rest' =>
        have hcd : nodub c d := (List.chain'_cons.mp h).1
        have hd : jsWs d = false := by
          by_contra hd'
          exact hcd ⟨hc, by simpa using hd'⟩
        have h3 : collapseAux .outside (d :: rest') = d :: rest' :=
          ih (List.chain'_cons.mp h).2
        have h4 : collapseAux .outside rest' = rest' := by
          have h5 : collapseAux .outside (d :: rest') = d :: collapseAux .outside rest' := by
            simp [collapseAux, hd]
          rw [h5] at h3
          exact (List.cons.injEq _ _ _ _).mp h3 |>.2
        have hstep : collapseAux .outside (c :: d :: rest') =
            c :: d :: collapseAux .outside rest' := by
          simp [collapseAux, hc, hd]
        rw [hstep, h4]
    · cases rest with
      | nil => simp [collapseAux, hc]
      | cons d rest' =>
        have h3 : collapseAux .outside (d :: rest') = d :: rest' :=
          ih (List.chain'_cons.mp h).2
        have hstep : collapseAux .outside (c :: d :: rest') =
            c :: collapseAux .outside (d :: rest') := by
          simp [collapseAux, hc]
        rw [hstep, h3]

/-- Trimming a string whose first and last characters are not whitespace is
the identity. -/
theorem jsTrim_id (l : List Char)
    (hh : ∀ c, l.head? = some c → jsWs c = false)
    (hl : ∀ c, l.getLast? = some c → jsWs c = false) :
    jsTrim ⟨l⟩ = ⟨l⟩ := by
  unfold jsTrim
  have h1 : l.dropWhile jsWs = l := by
    cases l with
    | nil => rfl
    | cons c rest => simp [List.dropWhile_cons, hh c rfl]
  rw [h1]
  have h2 : l.reverse.dropWhile jsWs = l.reverse := by
    cases hr : l.reverse with
    | nil => rfl
    | cons c rest =>
      have : l.getLast? = some c := by
        rw [← List.head?_reverse, hr]; rfl
      simp [List.dropWhile_cons, hl c this]
  rw [h2, List.reverse_reverse]

/-- Trimming a string that ends in a single space after a non-whitespace
character drops exactly that space. -/
theorem jsTrim_trailing_space (l : List Char)
    (hh : ∀ c, l.head? = some c → jsWs c = false)
    (hl : ∀ c, l.getLast? = some c → jsWs c = false) (hne : l ≠ []) :
    jsTrim ⟨l ++ [' ']⟩ = ⟨l⟩ := by
  unfold jsTrim
  have h1 : (l ++ [' ']).dropWhile jsWs = l ++ [' '] := by
    cases l with
    | nil => exact absurd rfl hne
    | cons c rest => simp [List.dropWhile_cons, hh c rfl]
  rw [h1]
  have h2 : (l ++ [' ']).reverse = ' ' :: l.reverse := by simp
  rw [h2]
  have h3 : (' ' :: l.reverse).dropWhile jsWs = l.reverse.dropWhile jsWs := by
    have hsp : jsWs ' ' = true := by decide
    simp [List.dropWhile_cons, hsp]
  have h4 : l.reverse.dropWhile jsWs = l.reverse := by
    cases hr : l.reverse with
    | nil => rfl
    | cons c rest =>
      have : l.getLast? = some c := by
        rw [← List.head?_reverse, hr]; rfl
      simp [List.dropWhile_cons, hl c this]
  rw [h3, h4, List.reverse_reverse]

theorem skips_nil (pat repl : List Char) : SkipsPat pat repl [] := by
  intro rest; simp

theorem skips_append {pat repl w₁ w₂ : List Char}
    (h₁ : SkipsPat pat repl w₁) (h₂ : SkipsPat pat repl w₂) :
    SkipsPat pat repl (w₁ ++ w₂) := by
  intro rest
  rw [List.append_assoc, h₁ (w₂ ++ rest), h₂ rest, List.append_assoc]

theorem skips_noLBrace {p' repl : List Char} (w : List Char)
    (hw : ∀ c ∈ w, c ≠ '\x7b') : SkipsPat ('\x7b' :: p') repl w :=
  fun rest => replaceOnce_append_noLBrace p' repl w rest hw

/-- The `\x7bmethod\x7d` block is skippable when searching for
`\x7bmessage\x7d` (the fourth characters differ). -/
theorem skips_method_for_message (repl : List Char) :
    SkipsPat phMessage.data repl phMethod.data := by
  intro rest
  show replaceOnceCh phMessage.data repl
      ('\x7b' :: 'm' :: 'e' :: 't' :: 'h' :: 'o' :: 'd' :: '\x7d' :: rest)
    = '\x7b' :: 'm' :: 'e' :: 't' :: 'h' :: 'o' :: 'd' :: '\x7d' ::
        replaceOnceCh phMessage.data repl rest
  rw [replaceOnceCh]
  rw [if_neg (by simp [phMessage, List.isPrefixOf])]
  rw [replaceOnceCh]
  rw [if_neg (by simp [phMessage, List.isPrefixOf])]
  rw [replaceOnceCh]
  rw [if_neg (by simp [phMessage, List.isPrefixOf])]
  rw [replaceOnceCh]
  rw [if_neg (by simp [phMessage, List.isPrefixOf])]
  rw [replaceOnceCh]
  rw [if_neg (by simp [phMessage, List.isPrefixOf])]
  rw [replaceOnceCh]
  rw [if_neg (by simp [phMessage, List.isPrefixOf])]
  rw [replaceOnceCh]
  rw [if_neg (by simp [phMessage, List.isPrefixOf])]
  rw [replaceOnceCh]
  rw [if_neg (by simp [phMessage, List.isPrefixOf])]

/-- First-occurrence replacement of `pat` in `pre ++ pat ++ post` when no
occurrence starts inside `pre`. -/
theorem jsReplaceOnce_seek (pre pat post repl : String) (hne : pat.data ≠ [])
    (hskip : SkipsPat pat.data repl.data pre.data) :
    jsReplaceOnce (pre ++ pat ++ post) pat repl = pre ++ repl ++ post := by
  unfold jsReplaceOnce
  have hdata : (pre ++ pat ++ post).data = pre.data ++ (pat.data ++ post.data) := by
    simp [String.data_append]
  rw [hdata, hskip (pat.data ++ post.data), replaceOnce_here pat.data repl.data post.data hne]
  cases pre with
  | mk a =>
    cases repl with
    | mk b =>
      cases post with
      | mk c =>
        show String.mk (a ++ (b ++ c)) = String.mk ((a ++ b) ++ c)
        exact congrArg String.mk (List.append_assoc a b c).symm

theorem chain_nodub_cons_nonws (c : Char) (l : List Char) (hc : jsWs c = false)
    (hl : List.Chain' nodub l) : List.Chain' nodub (c :: l) := by
  rw [List.chain'_cons']
  exact ⟨fun y _ => fun hy => by simp [hc] at hy, hl⟩

theorem chain_nodub_of_nonws (l : List Char) (hl : ∀ c ∈ l, jsWs c = false) :
    List.Chain' nodub l := by
  induction l with
  | nil => simp
  | cons c rest ih =>
    exact chain_nodub_cons_nonws c rest (hl c (by simp))
      (ih fun c hc => hl c (by simp [hc]))

theorem chain_nodub_append_left (w l : List Char) (hw : ∀ c ∈ w, jsWs c = false)
    (hl : List.Chain' nodub l) : List.Chain' nodub (w ++ l) := by
  induction w with
  | nil => simpa using hl
  | cons c w' ih =>
    exact chain_nodub_cons_nonws c (w' ++ l) (hw c (by simp))
      (ih fun c hc => hw c (by simp [hc]))

theorem chain_nodub_cons_space (l : List Char) (hl : List.Chain' nodub l)
    (hhead : ∀ c, l.head? = some c → jsWs c = false) :
    List.Chain' nodub (' ' :: l) := by
  rw [List.chain'_cons']
  refine ⟨fun y hy => fun hcontra => ?_, hl⟩
  have := hhead y hy
  simp [this] at hcontra

/-- Collapsing is the identity on a string without adjacent whitespace. -/
theorem collapseWs_id (s : String) (h : List.Chain' nodub s.data) :
    collapseWs s = s := by
  cases s with
  | mk l =>
    show String.mk (collapseWsCh l) = String.mk l
    exact congrArg String.mk (collapseAux_id l h)

theorem str_ext (a b : String) (h : a.data = b.data) : a = b := by
  cases a; cases b
  exact congrArg String.mk h

theorem str_assoc (a b c : String) : a ++ b ++ c = a ++ (b ++ c) := by
  cases a; cases b; cases c
  show String.mk _ = String.mk _
  exact congrArg String.mk (List.append_assoc _ _ _)

theorem plainTok_append (a b : String) (ha : plainTok a) (hb : plainTok b) :
    plainTok (a ++ b) := by
  intro c hc
  rw [String.data_append] at hc
  rcases List.mem_append.mp hc with h | h
  · exact ha c h
  · exact hb c h

theorem braceFree_append (a b : String) (ha : braceFree a) (hb : braceFree b) :
    braceFree (a ++ b) := by
  intro c hc
  rw [String.data_append] at hc
  rcases List.mem_append.mp hc with h | h
  · exact ha c h
  · exact hb c h

theorem skips_str_append (pat repl : List Char) (a b : String)
    (ha : SkipsPat pat repl a.data) (hb : SkipsPat pat repl b.data) :
    SkipsPat pat repl (a ++ b).data := by
  rw [String.data_append]
  exact skips_append ha hb


/-- A resolved registration is never the empty string. -/
theorem getRegisteredClassName_ne_empty (reg : Registry) (i : Nat) (c : Option Nat)
    (s : String) (h : getRegisteredClassName reg i c = some s) : s ≠ "" := by
  unfold getRegisteredClassName at h
  split at h
  · split_ifs at h with ht
    cases h; exact ht
  · split at h
    · split at h
      · split_ifs at h with hu
        cases h; exact hu
      · exact absurd h (by simp)
    · exact absurd h (by simp)

/-- Registering an instance makes direct resolution return that name. -/
theorem registerLoggerClass_resolves (reg : Registry) (instId : Nat)
    (ctorId : Option Nat) (X : String) (hX : X ≠ "") :
    getRegisteredClassName (registerLoggerClass reg instId ctorId X) instId ctorId
      = some X := by
  unfold registerLoggerClass getRegisteredClassName lookupReg
  rcases ctorId with _ | c
  · simp [hX, List.find?]
  · by_cases hc : c = instId
    · simp [hX, hc, List.find?]
    · simp [hX, hc, List.find?]

/-- The buffer evolution under `addLogEntry`: starting within capacity, a fold
of appends keeps exactly the most recent `MAX_LOG_ENTRIES` elements of the
combined sequence. -/
theorem foldl_addLogEntry_eq (es : List LogEntry) :
    ∀ h : List LogEntry, h.length ≤ MAX_LOG_ENTRIES →
      es.foldl addLogEntry h = (h ++ es).drop ((h ++ es).length - MAX_LOG_ENTRIES) := by
  induction es with
  | nil =>
    intro h hh
    have hz : h.length - MAX_LOG_ENTRIES = 0 := by omega
    simp [hz]
  | cons e tl ih =>
    intro h hh
    simp only [List.foldl_cons]
    by_cases hfull : MAX_LOG_ENTRIES < (h ++ [e]).length
    · have hlen : h.length = MAX_LOG_ENTRIES := by
        simp at hfull; omega
      have hadd : addLogEntry h e = (h ++ [e]).tail := by
        simp only [addLogEntry, if_pos hfull]
      obtain ⟨hd, ht, rfl⟩ : ∃ hd ht, h = hd :: ht := by
        cases h with
        | nil => simp [MAX_LOG_ENTRIES] at hlen
        | cons a b => exact ⟨a, b, rfl⟩
      rw [hadd]
      have htail : ((hd :: ht) ++ [e]).tail = ht ++ [e] := by simp
      rw [htail, ih (ht ++ [e]) (by simp at hlen ⊢; omega)]
      have hl1 : ((ht ++ [e]) ++ tl).length - MAX_LOG_ENTRIES = tl.length := by
        simp at hlen ⊢; omega
      have hl2 : ((hd :: ht) ++ e :: tl).length - MAX_LOG_ENTRIES = tl.length + 1 := by
        simp at hlen ⊢; omega
      rw [hl1, hl2]
      have hze : (hd :: ht) ++ e :: tl = hd :: (ht ++ e :: tl) := by simp
      rw [hze, List.drop_succ_cons]
      simp only [List.append_assoc, List.singleton_append]
    · have hadd : addLogEntry h e = h ++ [e] := by
        simp only [addLogEntry, if_neg hfull]
      rw [hadd, ih (h ++ [e]) (by simpa using Nat.not_lt.mp hfull)]
      simp

/-- The most recent `n` elements are the final `n`-element suffix. -/
theorem mostRecent_eq_drop (n : Nat) (l : List LogEntry) :
    l.drop (l.length - n) = mostRecent n l := by
  have h := List.rtake_eq_reverse_take_reverse (l := l) (n := n)
  simpa [List.rtake, mostRecent] using h

/-! ## Claim C2. -/

/-- C2: the log-history buffer never exceeds 1000 entries: a sequence of
`N > 1000` appends into the empty buffer leaves exactly the most recent 1000
entries, in their original chronological order (the oldest entries having been
evicted first). -/
theorem C2_history_capacity_fifo (es : List LogEntry)
    (hn : MAX_LOG_ENTRIES < es.length) :
    es.foldl addLogEntry [] = es.drop (es.length - MAX_LOG_ENTRIES) ∧
    (es.foldl addLogEntry []).length = MAX_LOG_ENTRIES ∧
    es.foldl addLogEntry [] = mostRecent MAX_LOG_ENTRIES es := by
  have h0 := foldl_addLogEntry_eq es [] (by simp)
  simp only [List.nil_append] at h0
  refine ⟨h0, ?_, ?_⟩
  · rw [h0, List.length_drop]; omega
  · rw [h0, mostRecent_eq_drop]

/-- Witness for C2 at a concrete 1001-element sequence. -/
theorem C2_history_capacity_fifo_witness :
    MAX_LOG_ENTRIES < overflowSeq.length ∧
      (overflowSeq.foldl addLogEntry [] =
          overflowSeq.drop (overflowSeq.length - MAX_LOG_ENTRIES) ∧
        (overflowSeq.foldl addLogEntry []).length = MAX_LOG_ENTRIES ∧
        overflowSeq.foldl addLogEntry [] = mostRecent MAX_LOG_ENTRIES overflowSeq) :=
  ⟨by simp only [overflowSeq, List.length_replicate, MAX_LOG_ENTRIES]; omega,
   C2_history_capacity_fifo overflowSeq
     (by simp only [overflowSeq, List.length_replicate, MAX_LOG_ENTRIES]; omega)⟩

/-! ## Claim C8 machinery: evaluating the placeholder substitution chains on
the default direct template. -/

theorem str_append_empty (a : String) : a ++ "" = a := by
  cases a with
  | mk l =>
    show String.mk (l ++ []) = String.mk l
    exact congrArg String.mk (List.append_nil l)

theorem skips_of_braceFree (pat repl : List Char) (s : String)
    (hp : pat.head? = some '\x7b') (hs : braceFree s) : SkipsPat pat repl s.data := by
  cases pat with
  | nil => simp at hp
  | cons c p' =>
    have hc : c = '\x7b' := by simpa using hp
    subst hc
    exact skips_noLBrace s.data hs

/-- The four substitutions of `formatPrefixCustom` on the default template. -/
theorem substituted_custom (ns cls mth m : String)
    (hns : braceFree ns) (hcls : braceFree cls) :
    jsReplaceOnce
        (jsReplaceOnce (jsReplaceOnce (jsReplaceOnce directTemplate phNamespace ns)
          phClass cls) phMessage m)
        phMethod mth
      = "[" ++ ns ++ "] " ++ cls ++ "." ++ mth ++ ": " ++ m := by
  have hplain1 : braceFree "[" := by decide
  have hplain2 : braceFree "] " := by decide
  have hplain3 : braceFree "." := by decide
  have hplain4 : braceFree ": " := by decide
  have hTd : directTemplate
      = "[" ++ phNamespace ++ ("] " ++ phClass ++ ("." ++ phMethod ++ (": " ++ phMessage))) := by
    decide
  have r1 : jsReplaceOnce directTemplate phNamespace ns
      = "[" ++ ns ++ ("] " ++ phClass ++ ("." ++ phMethod ++ (": " ++ phMessage))) := by
    rw [hTd]
    exact jsReplaceOnce_seek "[" phNamespace _ ns (by decide)
      (skips_of_braceFree _ _ "[" (by decide) hplain1)
  have hsh2 : "[" ++ ns ++ ("] " ++ phClass ++ ("." ++ phMethod ++ (": " ++ phMessage)))
      = ("[" ++ ns ++ "] ") ++ phClass ++ ("." ++ phMethod ++ (": " ++ phMessage)) := by
    simp [str_assoc]
  have hpre2 : braceFree ("[" ++ ns ++ "] ") :=
    braceFree_append _ _ (braceFree_append _ _ hplain1 hns) hplain2
  have r2 : jsReplaceOnce ("[" ++ ns ++ ("] " ++ phClass ++ ("." ++ phMethod ++ (": " ++ phMessage))))
        phClass cls
      = ("[" ++ ns ++ "] ") ++ cls ++ ("." ++ phMethod ++ (": " ++ phMessage)) := by
    rw [hsh2]
    exact jsReplaceOnce_seek _ phClass _ cls (by decide)
      (skips_of_braceFree _ _ _ (by decide) hpre2)
  have hsh3 : ("[" ++ ns ++ "] ") ++ cls ++ ("." ++ phMethod ++ (": " ++ phMessage))
      = (("[" ++ ns ++ "] ") ++ cls ++ "." ++ phMethod ++ ": ") ++ phMessage ++ "" := by
    simp [str_assoc, str_append_empty]
  have hskip3 : SkipsPat phMessage.data m.data
      (("[" ++ ns ++ "] ") ++ cls ++ "." ++ phMethod ++ ": ").data := by
    refine skips_str_append _ _ _ _ (skips_str_append _ _ _ _ ?_ ?_) ?_
    · exact skips_str_append _ _ _ _
        (skips_of_braceFree _ _ _ (by decide)
          (braceFree_append _ _ hpre2 hcls))
        (skips_of_braceFree _ _ _ (by decide) hplain3)
    · exact skips_method_for_message m.data
    · exact skips_of_braceFree _ _ _ (by decide) hplain4
  have r3 : jsReplaceOnce (("[" ++ ns ++ "] ") ++ cls ++ ("." ++ phMethod ++ (": " ++ phMessage)))
        phMessage m
      = (("[" ++ ns ++ "] ") ++ cls ++ "." ++ phMethod ++ ": ") ++ m ++ "" := by
    rw [hsh3]
    exact jsReplaceOnce_seek _ phMessage "" m (by decide) hskip3
  have hsh4 : (("[" ++ ns ++ "] ") ++ cls ++ "." ++ phMethod ++ ": ") ++ m ++ ""
      = (("[" ++ ns ++ "] ") ++ cls ++ ".") ++ phMethod ++ (": " ++ m) := by
    simp [str_assoc, str_append_empty]
  have r4 : jsReplaceOnce ((("[" ++ ns ++ "] ") ++ cls ++ "." ++ phMethod ++ ": ") ++ m ++ "")
        phMethod mth
      = (("[" ++ ns ++ "] ") ++ cls ++ ".") ++ mth ++ (": " ++ m) := by
    rw [hsh4]
    exact jsReplaceOnce_seek _ phMethod _ mth (by decide)
      (skips_of_braceFree _ _ _ (by decide)
        (braceFree_append _ _ (braceFree_append _ _ hpre2 hcls) hplain3))
  rw [r1, r2, r3, r4]
  simp [str_assoc]

/-- The substitutions of `formatPrefixOnly` (method before message removal) on
the default template. -/
theorem substituted_only (ns cls mth : String)
    (hns : braceFree ns) (hcls : braceFree cls) (hmth : braceFree mth) :
    jsReplaceOnce
        (jsReplaceOnce (jsReplaceOnce (jsReplaceOnce directTemplate phNamespace ns)
          phClass cls) phMethod mth)
        phMessage ""
      = "[" ++ ns ++ "] " ++ cls ++ "." ++ mth ++ ": " := by
  have hplain1 : braceFree "[" := by decide
  have hplain2 : braceFree "] " := by decide
  have hplain3 : braceFree "." := by decide
  have hplain4 : braceFree ": " := by decide
  have hTd : directTemplate
      = "[" ++ phNamespace ++ ("] " ++ phClass ++ ("." ++ phMethod ++ (": " ++ phMessage))) := by
    decide
  have r1 : jsReplaceOnce directTemplate phNamespace ns
      = "[" ++ ns ++ ("] " ++ phClass ++ ("." ++ phMethod ++ (": " ++ phMessage))) := by
    rw [hTd]
    exact jsReplaceOnce_seek "[" phNamespace _ ns (by decide)
      (skips_of_braceFree _ _ "[" (by decide) hplain1)
  have hsh2 : "[" ++ ns ++ ("] " ++ phClass ++ ("." ++ phMethod ++ (": " ++ phMessage)))
      = ("[" ++ ns ++ "] ") ++ phClass ++ ("." ++ phMethod ++ (": " ++ phMessage)) := by
    simp [str_assoc]
  have hpre2 : braceFree ("[" ++ ns ++ "] ") :=
    braceFree_append _ _ (braceFree_append _ _ hplain1 hns) hplain2
  have r2 : jsReplaceOnce ("[" ++ ns ++ ("] " ++ phClass ++ ("." ++ phMethod ++ (": " ++ phMessage))))
        phClass cls
      = ("[" ++ ns ++ "] ") ++ cls ++ ("." ++ phMethod ++ (": " ++ phMessage)) := by
    rw [hsh2]
    exact jsReplaceOnce_seek _ phClass _ cls (by decide)
      (skips_of_braceFree _ _ _ (by decide) hpre2)
  have hsh3 : ("[" ++ ns ++ "] ") ++ cls ++ ("." ++ phMethod ++ (": " ++ phMessage))
      = (("[" ++ ns ++ "] ") ++ cls ++ ".") ++ phMethod ++ (": " ++ phMessage) := by
    simp [str_assoc]
  have r3 : jsReplaceOnce (("[" ++ ns ++ "] ") ++ cls ++ ("." ++ phMethod ++ (": " ++ phMessage)))
        phMethod mth
      = (("[" ++ ns ++ "] ") ++ cls ++ ".") ++ mth ++ (": " ++ phMessage) := by
    rw [hsh3]
    exact jsReplaceOnce_seek _ phMethod _ mth (by decide)
      (skips_of_braceFree _ _ _ (by decide)
        (braceFree_append _ _ (braceFree_append _ _ hpre2 hcls) hplain3))
  have hsh4 : (("[" ++ ns ++ "] ") ++ cls ++ ".") ++ mth ++ (": " ++ phMessage)
      = ((("[" ++ ns ++ "] ") ++ cls ++ ".") ++ mth ++ ": ") ++ phMessage ++ "" := by
    simp [str_assoc, str_append_empty]
  have r4 : jsReplaceOnce ((("[" ++ ns ++ "] ") ++ cls ++ ".") ++ mth ++ (": " ++ phMessage))
        phMessage ""
      = ((("[" ++ ns ++ "] ") ++ cls ++ ".") ++ mth ++ ": ") ++ "" ++ "" := by
    rw [hsh4]
    exact jsReplaceOnce_seek _ phMessage "" "" (by decide)
      (skips_str_append _ _ _ _
        (skips_of_braceFree _ _ _ (by decide)
          (braceFree_append _ _ (braceFree_append _ _ (braceFree_append _ _ hpre2 hcls) hplain3) hmth))
        (skips_of_braceFree _ _ _ (by decide) hplain4))
  rw [r1, r2, r3, r4]
  simp [str_assoc, str_append_empty]

theorem applyTemplateCustom_default (ns cls mth m : String)
    (hns : braceFree ns) (hcls : braceFree cls) :
    applyTemplateCustom directTemplate ns cls mth m
      = jsTrim (collapseWs ("[" ++ ns ++ "] " ++ cls ++ "." ++ mth ++ ": " ++ m)) := by
  have hinc : jsIncludes directTemplate phMethod = true := by decide
  show jsTrim (collapseWs
      (if jsIncludes directTemplate phMethod then _ else _)) = _
  rw [hinc]
  simp only [if_true]
  rw [substituted_custom ns cls mth m hns hcls]

theorem applyTemplateOnly_default (ns cls mth : String)
    (hns : braceFree ns) (hcls : braceFree cls) (hmth : braceFree mth) :
    applyTemplateOnly directTemplate ns cls mth
      = jsTrim (collapseWs (jsTrim ("[" ++ ns ++ "] " ++ cls ++ "." ++ mth ++ ": "))) := by
  have hinc : jsIncludes directTemplate phMethod = true := by decide
  show jsTrim (collapseWs (jsTrim (jsReplaceOnce
      (if jsIncludes directTemplate phMethod then _ else _) phMessage ""))) = _
  rw [hinc]
  simp only [if_true]
  rw [substituted_only ns cls mth hns hcls hmth]

theorem jsTrim_id_str (s : String)
    (hh : ∀ c, s.data.head? = some c → jsWs c = false)
    (hl : ∀ c, s.data.getLast? = some c → jsWs c = false) : jsTrim s = s := by
  cases s with
  | mk l => exact jsTrim_id l hh hl

/-! ## Claim C8. -/

/-- C8 counterexample: with the default configuration, a component override
`"C"`, a resolver-derived method `"m"` and the message `"a  b"` (two internal
spaces), the message-including entry point collapses the whitespace run inside
the message while manual concatenation after `formatPrefixOnly` does not, so
the two results differ. -/
theorem C8_counterexample :
    formatPrefixCustom [] [] initialConfig (some "C") none
        ⟨none, some "m", false⟩ (some "a  b")
      = "[obsidian-plugin] C.m: a b" ∧
    formatPrefixOnly [] [] initialConfig (some "C") none
        ⟨none, some "m", false⟩ ++ " " ++ "a  b"
      = "[obsidian-plugin] C.m: a  b" ∧
    ("[obsidian-plugin] C.m: a b" : String) ≠ "[obsidian-plugin] C.m: a  b" :=
  ⟨by decide, by decide, by decide⟩

/-- C8 as amended: with the default direct template, in a non-callback
resolution on which both formatters derive the same parts, and for
whitespace-free, brace-free namespace/class/method tokens and a nonempty
whitespace-free, brace-free message, `formatPrefixOnly` followed by manual
concatenation (a space and the message, as the emitter itself does) equals
`formatPrefixCustom` with the message.  In general the equality fails. -/
theorem C8_prefix_message_concat (st : Store) (reg : Registry) (cfg : DebugConfig)
    (component : Option String) (ctx : Option JSVal) (ci : CallerInfo) (m : String)
    (htmpl : cfg.formatTemplate = directTemplate)
    (hsame : derivePrefixOnly st reg component ctx ci
      = derivePrefixCustom st reg component ctx ci)
    (hncb : (derivePrefixCustom st reg component ctx ci).isCallback = false)
    (hns : plainTok (getNamespace cfg))
    (hcls : plainTok (jsOrStr (derivePrefixCustom st reg component ctx ci).className ""))
    (hmth : plainTok (jsOrStr (derivePrefixCustom st reg component ctx ci).methodName ""))
    (hm : plainTok m) (hm0 : m ≠ "") :
    formatPrefixCustom st reg cfg component ctx ci (some m)
      = formatPrefixOnly st reg cfg component ctx ci ++ " " ++ m := by
  set N := getNamespace cfg with hN
  set P := derivePrefixCustom st reg component ctx ci with hP
  set CLS := jsOrStr P.className "" with hCLS
  set MTH := jsOrStr P.methodName "" with hMTH
  have htsel : (if P.isCallback then cfg.callbackFormatTemplate else cfg.formatTemplate)
      = directTemplate := by
    rw [hncb]
    simp [htmpl]
  have hCeq : formatPrefixCustom st reg cfg component ctx ci (some m)
      = applyTemplateCustom directTemplate N CLS MTH m := by
    show applyTemplateCustom
        (if P.isCallback then cfg.callbackFormatTemplate else cfg.formatTemplate)
        N CLS MTH (jsOrStr (some m) "") = _
    rw [htsel]
    congr 1
    simp [jsOrStr, hm0]
  have hOeq : formatPrefixOnly st reg cfg component ctx ci
      = applyTemplateOnly directTemplate N CLS MTH := by
    show applyTemplateOnly
        (if (derivePrefixOnly st reg component ctx ci).isCallback then
          cfg.callbackFormatTemplate else cfg.formatTemplate)
        N (jsOrStr (derivePrefixOnly st reg component ctx ci).className "")
        (jsOrStr (derivePrefixOnly st reg component ctx ci).methodName "") = _
    rw [hsame, htsel]
  rw [hCeq, hOeq, applyTemplateCustom_default N CLS MTH m hns.braceFree hcls.braceFree,
    applyTemplateOnly_default N CLS MTH hns.braceFree hcls.braceFree hmth.braceFree]
  have e1 : ("[" : String).data = ['['] := rfl
  have e2 : ("] " : String).data = [']', ' '] := rfl
  have e3 : ("." : String).data = ['.'] := rfl
  have e4 : (": " : String).data = [':', ' '] := rfl
  have e5 : (":" : String).data = [':'] := rfl
  have e6 : (" " : String).data = [' '] := rfl
  have hmne : m.data ≠ [] := fun h => hm0 (str_ext m "" (by rw [h]))
  have hmhead : ∀ c, m.data.head? = some c → jsWs c = false :=
    fun c hc => (hm c (List.mem_of_mem_head? hc)).1
  have hclsHead : ∀ c, (CLS.data ++ '.' :: (MTH.data ++ (':' :: ' ' :: m.data))).head?
      = some c → jsWs c = false := by
    intro c hc
    cases hcd : CLS.data with
    | nil =>
      rw [hcd] at hc
      simp at hc
      subst hc
      decide
    | cons a t =>
      rw [hcd] at hc
      simp at hc
      subst hc
      exact (hcls a (by rw [hcd]; simp)).1
  have hclsHeadB : ∀ c, (CLS.data ++ '.' :: (MTH.data ++ [':'])).head?
      = some c → jsWs c = false := by
    intro c hc
    cases hcd : CLS.data with
    | nil =>
      rw [hcd] at hc
      simp at hc
      subst hc
      decide
    | cons a t =>
      rw [hcd] at hc
      simp at hc
      subst hc
      exact (hcls a (by rw [hcd]; simp)).1
  have chainC : List.Chain' nodub
      ('[' :: (N.data ++ (']' :: ' ' :: (CLS.data ++ ('.' ::
        (MTH.data ++ (':' :: ' ' :: m.data))))))) := by
    apply chain_nodub_cons_nonws _ _ (by decide)
    apply chain_nodub_append_left _ _ (fun c hc => (hns c hc).1)
    apply chain_nodub_cons_nonws _ _ (by decide)
    apply chain_nodub_cons_space _ _ hclsHead
    apply chain_nodub_append_left _ _ (fun c hc => (hcls c hc).1)
    apply chain_nodub_cons_nonws _ _ (by decide)
    apply chain_nodub_append_left _ _ (fun c hc => (hmth c hc).1)
    apply chain_nodub_cons_nonws _ _ (by decide)
    apply chain_nodub_cons_space _ _ hmhead
    exact chain_nodub_of_nonws _ (fun c hc => (hm c hc).1)
  have chainB : List.Chain' nodub
      ('[' :: (N.data ++ (']' :: ' ' :: (CLS.data ++ ('.' ::
        (MTH.data ++ [':'])))))) := by
    apply chain_nodub_cons_nonws _ _ (by decide)
    apply chain_nodub_append_left _ _ (fun c hc => (hns c hc).1)
    apply chain_nodub_cons_nonws _ _ (by decide)
    apply chain_nodub_cons_space _ _ hclsHeadB
    apply chain_nodub_append_left _ _ (fun c hc => (hcls c hc).1)
    apply chain_nodub_cons_nonws _ _ (by decide)
    apply chain_nodub_append_left _ _ (fun c hc => (hmth c hc).1)
    exact chain_nodub_cons_nonws _ _ (by decide) (by simp)
  have hdataC : ("[" ++ N ++ "] " ++ CLS ++ "." ++ MTH ++ ": " ++ m).data
      = '[' :: (N.data ++ (']' :: ' ' :: (CLS.data ++ ('.' ::
          (MTH.data ++ (':' :: ' ' :: m.data)))))) := by
    simp [String.data_append, e1, e2, e3, e4, List.append_assoc]
  have hdataB : ("[" ++ N ++ "] " ++ CLS ++ "." ++ MTH ++ ":").data
      = '[' :: (N.data ++ (']' :: ' ' :: (CLS.data ++ ('.' ::
          (MTH.data ++ [':']))))) := by
    simp [String.data_append, e1, e2, e3, e5, List.append_assoc]
  have hCfinal : jsTrim (collapseWs ("[" ++ N ++ "] " ++ CLS ++ "." ++ MTH ++ ": " ++ m))
      = "[" ++ N ++ "] " ++ CLS ++ "." ++ MTH ++ ": " ++ m := by
    rw [collapseWs_id _ (by rw [hdataC]; exact chainC)]
    apply jsTrim_id_str
    · intro c hc
      rw [hdataC] at hc
      simp at hc
      subst hc
      decide
    · intro c hc
      have hsp : ("[" ++ N ++ "] " ++ CLS ++ "." ++ MTH ++ ": " ++ m).data
          = ("[" ++ N ++ "] " ++ CLS ++ "." ++ MTH ++ ": ").data ++ m.data := by
        rw [String.data_append]
      rw [hsp, List.getLast?_append_of_ne_nil _ hmne] at hc
      exact (hm c (List.mem_of_mem_getLast? hc)).1
  have hheadB : ∀ c, ("[" ++ N ++ "] " ++ CLS ++ "." ++ MTH ++ ":").data.head? = some c →
      jsWs c = false := by
    intro c hc
    rw [hdataB] at hc
    simp at hc
    subst hc
    decide
  have hlastB : ∀ c, ("[" ++ N ++ "] " ++ CLS ++ "." ++ MTH ++ ":").data.getLast? = some c →
      jsWs c = false := by
    intro c hc
    have hsp : ("[" ++ N ++ "] " ++ CLS ++ "." ++ MTH ++ ":").data
        = ("[" ++ N ++ "] " ++ CLS ++ "." ++ MTH).data ++ [':'] := by
      rw [String.data_append, e5]
    rw [hsp, List.getLast?_concat] at hc
    cases hc
    decide
  have hsplit : "[" ++ N ++ "] " ++ CLS ++ "." ++ MTH ++ ": "
      = ("[" ++ N ++ "] " ++ CLS ++ "." ++ MTH ++ ":") ++ " " := by
    have hc : (": " : String) = ":" ++ " " := rfl
    simp [str_assoc, hc]
  have hOfinal : jsTrim (collapseWs (jsTrim ("[" ++ N ++ "] " ++ CLS ++ "." ++ MTH ++ ": ")))
      = "[" ++ N ++ "] " ++ CLS ++ "." ++ MTH ++ ":" := by
    rw [hsplit]
    have htr : jsTrim (("[" ++ N ++ "] " ++ CLS ++ "." ++ MTH ++ ":") ++ " ")
        = "[" ++ N ++ "] " ++ CLS ++ "." ++ MTH ++ ":" := by
      have hrepr : ("[" ++ N ++ "] " ++ CLS ++ "." ++ MTH ++ ":") ++ " "
          = String.mk (("[" ++ N ++ "] " ++ CLS ++ "." ++ MTH ++ ":").data ++ [' ']) := by
        apply str_ext
        rw [String.data_append, e6]
      rw [hrepr]
      have := jsTrim_trailing_space ("[" ++ N ++ "] " ++ CLS ++ "." ++ MTH ++ ":").data
        hheadB hlastB (by rw [hdataB]; simp)
      rw [this]
    rw [htr]
    rw [collapseWs_id _ (by rw [hdataB]; exact chainB)]
    exact jsTrim_id_str _ hheadB hlastB
  rw [hCfinal, hOfinal]
  have hc : (": " : String) = ":" ++ " " := rfl
  simp [str_assoc, hc]

/-- Witness for C8 as amended at concrete inputs. -/
theorem C8_prefix_message_concat_witness :
    formatPrefixCustom [] [] initialConfig (some "C") none
        ⟨none, some "m", false⟩ (some "hello")
      = formatPrefixOnly [] [] initialConfig (some "C") none
          ⟨none, some "m", false⟩ ++ " " ++ "hello" :=
  C8_prefix_message_concat [] [] initialConfig (some "C") none
    ⟨none, some "m", false⟩ "hello" rfl (by decide) (by decide) (by decide)
    (by decide) (by decide) (by decide) (by decide)

/-! ## Claim C10. -/

/-- C10: `setLevel` with a non-`error` level while disabled also enables
logging (so `enabled()` reports true and levels at or below the set one pass
`shouldLog`), while `setLevel('error')` while disabled leaves logging
disabled. -/
theorem C10_setLevel_enables (c : DebugConfig) (L : LogLevel)
    (hdis : c.debugEnabled = false) :
    (L ≠ .error →
      (debugSetLevel c L).debugEnabled = true ∧
      (debugSetLevel c L).currentLogLevel = L ∧
      debugEnabledQ (debugSetLevel c L) = true ∧
      ∀ L', levelNum L' ≤ levelNum L → shouldLog (debugSetLevel c L) L' = true) ∧
    (L = .error →
      (debugSetLevel c L).debugEnabled = false ∧
      (debugSetLevel c L).currentLogLevel = L) := by
  constructor
  · intro hL
    refine ⟨?_, ?_, ?_, ?_⟩ <;>
      simp [debugSetLevel, hdis, hL, debugEnabledQ, shouldLog, debugGetLevel]
    intro L' hle
    by_cases hLe : L' = .error <;> simp [hLe, hle]
  · intro hL
    subst hL
    simp [debugSetLevel, hdis]

/-- Witness for C10 from the initial (disabled) configuration at level
`debug`. -/
theorem C10_setLevel_enables_witness :
    initialConfig.debugEnabled = false ∧
      ((LogLevel.debug ≠ .error →
        (debugSetLevel initialConfig .debug).debugEnabled = true ∧
        (debugSetLevel initialConfig .debug).currentLogLevel = .debug ∧
        debugEnabledQ (debugSetLevel initialConfig .debug) = true ∧
        ∀ L', levelNum L' ≤ levelNum .debug →
          shouldLog (debugSetLevel initialConfig .debug) L' = true) ∧
      (LogLevel.debug = .error →
        (debugSetLevel initialConfig .debug).debugEnabled = false ∧
        (debugSetLevel initialConfig .debug).currentLogLevel = .debug)) :=
  ⟨rfl, C10_setLevel_enables initialConfig .debug rfl⟩

/-! ## Claim C4. -/

/-- C4 counterexample: an instance registered under the display name `"A.B"`,
resolved in a callback context, renders the class segment `"A"` — not the
registered name.  (The registered name is split at its dot by the trailing
fix-up whenever no method name was derived.) -/
theorem C4_counterexample :
    (derivePrefixOnly [(1, ⟨false, [], [], some 10, some "Minified", none, "", ""⟩)]
        (registerLoggerClass [] 1 (some 10) "A.B") none (some (.vref 1))
        ⟨some "Zed", some "run", true⟩).className = some "A" ∧
      some "A" ≠ some "A.B" ∧
      formatPrefixOnly [(1, ⟨false, [], [], some 10, some "Minified", none, "", ""⟩)]
        (registerLoggerClass [] 1 (some 10) "A.B") initialConfig none (some (.vref 1))
        ⟨some "Zed", some "run", true⟩ = "[obsidian-plugin] A (callback):" := by
  refine ⟨by decide, by decide, by decide⟩

/-- C4 as amended: for an instance whose registry resolution yields a display
name `X` that contains no dot, the class segment rendered by
`formatPrefixOnly` is `X`, whatever class name the stack resolver derived. -/
theorem C4_registry_precedence (st : Store) (reg : Registry) (id : Nat)
    (component : Option String) (ci : CallerInfo) (X : String)
    (hreg : getRegisteredClassNameV st reg (.vref id) = some X)
    (hdot : '.' ∉ X.data) :
    (derivePrefixOnly st reg component (some (.vref id)) ci).className = some X ∧
    jsOrStr (derivePrefixOnly st reg component (some (.vref id)) ci).className "" = X := by
  have hX : X ≠ "" := by
    have hv : getRegisteredClassNameV st reg (.vref id) =
        (match storeFind st id with
         | some d => getRegisteredClassName reg id d.ctorId
         | none => none) := rfl
    rw [hv] at hreg
    rcases hs : storeFind st id with _ | d
    · rw [hs] at hreg; simp at hreg
    · rw [hs] at hreg
      exact getRegisteredClassName_ne_empty _ _ _ _ hreg
  have hts : strTruthy (some X) = true := by simp [strTruthy, hX]
  have hcls : (derivePrefixOnly st reg component (some (.vref id)) ci).className = some X := by
    unfold derivePrefixOnly
    simp only [truthyCtx, jsTruthy, if_pos]
    rw [hreg]
    by_cases hmn : strTruthy ci.methodName ∧ ¬ci.isCallback
    · rw [if_pos hmn]
      unfold deriveFallback deriveFixups
      simp [hmn.1, hts, strContainsDot]
    · rw [if_neg hmn]
      rw [if_neg (by simp [hts])]
      unfold deriveFallback deriveFixups
      simp [hts, strContainsDot, hdot]
  exact ⟨hcls, by rw [hcls]; simp [jsOrStr, hX]⟩

/-- Witness for C4 as amended, at a concretely registered `"Worker"`. -/
theorem C4_registry_precedence_witness :
    getRegisteredClassNameV [(1, ⟨false, [], [], some 10, some "Minified", none, "", ""⟩)]
        (registerLoggerClass [] 1 (some 10) "Worker") (.vref 1) = some "Worker" ∧
      '.' ∉ "Worker".data ∧
      (derivePrefixOnly [(1, ⟨false, [], [], some 10, some "Minified", none, "", ""⟩)]
          (registerLoggerClass [] 1 (some 10) "Worker") none (some (.vref 1))
          ⟨some "Zed", some "run", false⟩).className = some "Worker" ∧
      jsOrStr (derivePrefixOnly [(1, ⟨false, [], [], some 10, some "Minified", none, "", ""⟩)]
          (registerLoggerClass [] 1 (some 10) "Worker") none (some (.vref 1))
          ⟨some "Zed", some "run", false⟩).className "" = "Worker" :=
  ⟨by decide, by decide,
    C4_registry_precedence _ _ _ none ⟨some "Zed", some "run", false⟩ "Worker"
      (by decide) (by decide)⟩

/-- Claim C5, counterexample: path simplification is not idempotent.  On
`((..?/a/b` the first pass consumes one `(` as the relative-pattern anchor
and drops it (the callback re-attaches only leading whitespace), leaving the
other `(` to anchor a fresh match on the second pass. -/
theorem C5_counterexample :
    simplifyPath "((..?/a/b" = "(..?/.../a/b" ∧
      simplifyPath "(..?/.../a/b" = "..?/.../a/b" ∧
      simplifyPath (simplifyPath "((..?/a/b") ≠ simplifyPath "((..?/a/b" := by
  refine ⟨by decide, by decide, ?_⟩
  decide

/-- Claim C5 as amended: on the documented example and on representative
escaped-Windows, raw-Windows and literal-`..?/`-marked paths, one pass
collapses the path and a second pass leaves the result unchanged
(idempotence at these points). -/
theorem C5_idempotent_on_examples :
    (simplifyPath "/home/user/project/src/file.ts" = ".../src/file.ts" ∧
      simplifyPath ".../src/file.ts" = ".../src/file.ts") ∧
    (simplifyPath "C:\\\\a\\\\b\\\\c.ts" = ".../b/c.ts" ∧
      simplifyPath "C:\\a\\b\\c.ts" = ".../b/c.ts" ∧
      simplifyPath ".../b/c.ts" = ".../b/c.ts") ∧
    (simplifyPath "..?/a/b/c" = "..?/.../b/c" ∧
      simplifyPath "..?/.../b/c" = "..?/.../b/c") := by
  exact ⟨⟨by decide, by decide⟩, ⟨by decide, by decide, by decide⟩, by decide, by decide⟩

/-- Claim C6, counterexample: a `./`-relative path is never rewritten at all —
the relative pattern's marker group `(\.\.\?\/)` escapes the `?`, so it
demands the literal text `..?/` and `./a/b/c` stays unchanged instead of
collapsing to `.../b/c`. -/
theorem C6_counterexample :
    simplifyPath "./a/b/c" = "./a/b/c" ∧ simplifyPath "./a/b/c" ≠ ".../b/c" := by
  exact ⟨by decide, by decide⟩

/-- Claim C6 as amended: texts containing `./`- or `../`-relative paths are
left unmodified, because the relative pattern only matches the literal
marker `..?/`; a `..?/`-marked path with at least two segments is collapsed
to `..?/.../<parent>/<file>` with the marker kept (also mid-text after
whitespace), and with fewer than two segments it is left unmodified. -/
theorem C6_relative_collapse_keeps_marker :
    simplifyPath "../a/b/c" = "../a/b/c" ∧
      simplifyPath " ./x/y" = " ./x/y" ∧
      simplifyPath "..?/p/q/r" = "..?/.../q/r" ∧
      simplifyPath " ..?/a/b/c" = " ..?/.../b/c" ∧
      simplifyPath "..?/a" = "..?/a" := by
  exact ⟨by decide, by decide, by decide, by decide, by decide⟩

/-- Claim C9: `clearLogs` of the controller clears the whole buffer even when
a specific namespace is requested, while the config layer's selective
`clearLogHistory` — the behaviour the claim describes — keeps the other
namespaces. -/
theorem C9_clearLogs_clears_all :
    (clearLogs twoNsHist initialConfig (some "alpha")).1 = [] ∧
      clearLogHistory twoNsHist (some "alpha") = [plainEntry 1 "beta" "b"] ∧
      (clearLogs twoNsHist initialConfig (some "alpha")).2 =
        "Log history cleared for namespace: alpha" := by
  exact ⟨by decide, by decide, by decide⟩

/-- Claim C7, counterexample: a cyclic instance with a usable constructor
name serializes to the bare class name with no circular-reference marker. -/
theorem C7_counterexample :
    safeStringify cyclicFooStore [] (.vref 1) = "Foo" ∧
      jsIncludes (safeStringify cyclicFooStore [] (.vref 1)) "[Circular]" = false := by
  exact ⟨by decide, by decide⟩

theorem isPrefixOf_self_append (l t : List Char) : l.isPrefixOf (l ++ t) = true := by
  induction l with
  | nil => simp [List.isPrefixOf]
  | cons c l ih => simp [List.isPrefixOf, ih]

theorem isInfixOfCh_of_isPrefixOf (pat s : List Char) (h : pat.isPrefixOf s = true) :
    isInfixOfCh pat s = true := by
  cases s with
  | nil => simpa [isInfixOfCh] using h
  | cons c rest => simp [isInfixOfCh, h]

theorem isInfixOfCh_cons (pat : List Char) (c : Char) (t : List Char)
    (h : isInfixOfCh pat t = true) : isInfixOfCh pat (c :: t) = true := by
  simp [isInfixOfCh, h]

theorem isInfixOfCh_append_left (pat pre t : List Char) (h : isInfixOfCh pat t = true) :
    isInfixOfCh pat (pre ++ t) = true := by
  induction pre with
  | nil => simpa using h
  | cons c l ih => simpa using isInfixOfCh_cons pat c (l ++ t) ih

theorem jsIncludes_append_left (p q sub : String) (h : jsIncludes q sub = true) :
    jsIncludes (p ++ q) sub = true := by
  unfold jsIncludes at h ⊢
  rw [String.data_append]
  exact isInfixOfCh_append_left _ _ _ h

/-- Claim C3, counterexample: with `simplifyPaths` at its default `true`, the
exported message-only text is not the verbatim newline-joined messages — a
path inside a message is rewritten. -/
theorem C3_counterexample :
    copyLogsMessageOnly
        [plainEntry 0 "obsidian-plugin" "/home/user/project/src/file.ts"]
        "obsidian-plugin" 1 = some ".../src/file.ts" ∧
      copyLogsMessageOnly
        [plainEntry 0 "obsidian-plugin" "/home/user/project/src/file.ts"]
        "obsidian-plugin" 1 ≠ some "/home/user/project/src/file.ts" := by
  exact ⟨by decide, by decide⟩

/-- Claim C3 as amended: the namespace filter keeps exactly the matching
entries in order, `slice(-count)` keeps the most recent `count` of them, and
on the five-message history the exported message-only text for `count = 2`
is exactly `d\ne` (path simplification leaving it unchanged). -/
theorem C3_copyLogs_message_only (hist : List LogEntry) (nsp : String) (count : Nat)
    (hc : 0 < count) (hn : nsp ≠ "") :
    getLogHistory hist (some nsp) = hist.filter (fun e => e.ns = nsp) ∧
      jsSliceNeg (getLogHistory hist (some nsp)) count =
        mostRecent count (getLogHistory hist (some nsp)) ∧
      copyLogsMessageOnly fiveMsgHist "obsidian-plugin" 2 = some "d\ne" := by
  refine ⟨?_, ?_, by decide⟩
  · simp [getLogHistory, hn]
  · unfold jsSliceNeg
    rw [if_neg (by omega)]
    exact mostRecent_eq_drop _ _

/-- Witness for C3 as amended, on the five-message history. -/
theorem C3_copyLogs_message_only_witness :
    getLogHistory fiveMsgHist (some "obsidian-plugin") =
        fiveMsgHist.filter (fun e => e.ns = "obsidian-plugin") ∧
      jsSliceNeg (getLogHistory fiveMsgHist (some "obsidian-plugin")) 2 =
        mostRecent 2 (getLogHistory fiveMsgHist (some "obsidian-plugin")) ∧
      copyLogsMessageOnly fiveMsgHist "obsidian-plugin" 2 = some "d\ne" :=
  C3_copyLogs_message_only fiveMsgHist "obsidian-plugin" 2 (by decide) (by decide)

/-- C1: the emitter's gate.  When logging is disabled and the level is not
`error`, a call leaves the history and the console untouched; a call at level
`error` always appends one entry (of level `error`, the plugin namespace and
the given timestamp) and makes exactly one console call, regardless of the
enabled flag and the configured level. -/
theorem C1_error_always_disabled_never (st : Store) (reg : Registry) (ci : CallerInfo)
    (cfg : DebugConfig) (level : LogLevel) (args : List JSVal) (ts : Nat) (s : LogState) :
    (cfg.debugEnabled = false → level ≠ .error →
      log st reg ci cfg level args ts s = s) ∧
    (∃ e call, log st reg ci cfg .error args ts s =
        ⟨addLogEntry s.hist e, s.console ++ [(.error, call)]⟩ ∧
      e.level = .error ∧ e.ns = getNamespace cfg ∧ e.timestamp = ts) := by
  constructor
  · intro hd hne
    have hs : shouldLog cfg level = false := by
      simp [shouldLog, debugEnabledQ, hd, hne]
    simp [log, hs]
  · exact ⟨_, _, rfl, rfl, rfl, rfl⟩

/-- Witness for C1 at a disabled configuration: a `debug` call is a no-op and
an `error` call writes and appends. -/
theorem C1_error_always_disabled_never_witness :
    (log [] [] ⟨none, none, false⟩ initialConfig .debug [.vstr "hi", .vstr "x"] 0
        ⟨[], []⟩ = ⟨[], []⟩) ∧
    (∃ e call, log [] [] ⟨none, none, false⟩ initialConfig .error [.vstr "hi", .vstr "x"] 0
        ⟨[], []⟩ = ⟨addLogEntry [] e, [] ++ [(.error, call)]⟩ ∧
      e.level = .error ∧ e.ns = getNamespace initialConfig ∧ e.timestamp = 0) :=
  ⟨(C1_error_always_disabled_never [] [] ⟨none, none, false⟩ initialConfig .debug
      [.vstr "hi", .vstr "x"] 0 ⟨[], []⟩).1 rfl (by decide),
   (C1_error_always_disabled_never [] [] ⟨none, none, false⟩ initialConfig .error
      [.vstr "hi", .vstr "x"] 0 ⟨[], []⟩).2⟩

theorem intercalate_singleton (s x : String) : String.intercalate s [x] = x := by
  rfl

theorem jsonRender_single_self_loop (st : Store) (g id : Nat) (k : String) (d : ObjData)
    (hst : storeFind st id = some d) (ha : d.isArray = false)
    (hf : d.fields = [(k, .vref id)]) :
    jsonRender st (g + 1) [] (.vref id) =
      (some ("\x7b" ++ (jsonQuote k ++ ":" ++ jsonQuote "[Circular]") ++ "\x7d"),
       [id]) := by
  have hr : jsonRender st g [id] (.vref id) = (some (jsonQuote "[Circular]"), [id]) := by
    cases g with
    | zero => simp [jsonRender]
    | succ g => simp [jsonRender]
  simp [jsonRender, jsonRenderFieldsWith, hst, ha, hf, hr, intercalate_singleton]

theorem scc_plain_self (st : Store) (reg : Registry) (g id : Nat) (k : String) (d : ObjData)
    (hst : storeFind st id = some d) (ha : d.isArray = false) (hnn : d.nodeName = none)
    (hcn : d.ctorName = none) (hreg : getRegisteredClassName reg id d.ctorId = none)
    (hf : d.fields = [(k, .vref id)]) :
    stringifyWithCircularCheck st reg (g + 1) [] (.vref id) =
      "\x7b" ++ ((if isIdentKey k then k else "\"" ++ k ++ "\"") ++ ": " ++ "[Circular]") ++
        "\x7d" := by
  have hj : jsonAttempt st (.vref id) =
      some ("\x7b" ++ (jsonQuote k ++ ":" ++ jsonQuote "[Circular]") ++ "\x7d") := by
    unfold jsonAttempt
    rw [jsonRender_single_self_loop st st.length id k d hst ha hf]
  have hincl : jsIncludes
      ("\x7b" ++ (jsonQuote k ++ ":" ++ jsonQuote "[Circular]") ++ "\x7d")
      "[Circular]" = true := by
    have e1 : jsonQuote "[Circular]" = "\"[Circular]\"" := by decide
    rw [e1, str_assoc, str_assoc]
    exact jsIncludes_append_left _ _ _ (jsIncludes_append_left _ _ _ (by decide))
  have hinner : stringifyWithCircularCheck st reg g [id] (.vref id) = "[Circular]" := by
    cases g <;> simp [stringifyWithCircularCheck]
  simp [stringifyWithCircularCheck, hst, ha, hnn, hcn, hreg, hf, hj, hincl, hinner,
    intercalate_singleton]

/-- Claim C7 as amended: for a plain object — no DOM facet, no usable
constructor name, no registration — whose field directly references the
object itself, `safeStringify` does return the circular-reference marker
(and, the model being total, it returns a finite string on every input). -/
theorem C7_plain_self_reference_marked (st : Store) (reg : Registry) (id : Nat)
    (k : String) (d : ObjData)
    (hst : storeFind st id = some d) (ha : d.isArray = false) (hnn : d.nodeName = none)
    (hcn : d.ctorName = none) (hreg : getRegisteredClassName reg id d.ctorId = none)
    (hf : d.fields = [(k, .vref id)]) :
    jsIncludes (safeStringify st reg (.vref id)) "[Circular]" = true := by
  have h3 : stringifyWithCircularCheck st reg 3 [] (.vref id) =
      "\x7b" ++ ((if isIdentKey k then k else "\"" ++ k ++ "\"") ++ ": " ++ "[Circular]") ++
        "\x7d" :=
    scc_plain_self st reg 2 id k d hst ha hnn hcn hreg hf
  simp only [safeStringify]
  rw [h3, str_assoc, str_assoc]
  exact jsIncludes_append_left _ _ _ (jsIncludes_append_left _ _ _ (by decide))

/-- Witness for C7 as amended, on the one-object self-referential store. -/
theorem C7_plain_self_reference_marked_witness :
    storeFind selfRefStore 1 =
        some ⟨false, [], [("self", .vref 1)], none, none, none, "", ""⟩ ∧
      jsIncludes (safeStringify selfRefStore [] (.vref 1)) "[Circular]" = true :=
  ⟨by decide,
    C7_plain_self_reference_marked selfRefStore [] 1 "self"
      ⟨false, [], [("self", .vref 1)], none, none, none, "", ""⟩
      (by decide) rfl rfl rfl (by decide) rfl⟩

end ObsLog
